import Mathlib

/-!
# Verification of the itinerary-server discovery pipeline

Shallow embedding of the Scout / Explorer / JSON-extraction / coverage /
resilient-invoker code of the itinerary server, with theorems settling the
frozen claims about it.

JavaScript values flowing through the pipeline (parsed model responses,
link and event records) are modelled by the `Json` inductive below.  JS
objects are modelled as ordered association lists over their own
properties (the prototype chain is not modelled); JSON numeric literals
are modelled as integers (the concrete values in this repository's data
are integers, and no claim depends on fractional numbers).
-/

/-- A JavaScript value, as produced by `JSON.parse` and passed around the
pipeline.  `undef` models the JS `undefined` value (it is never produced
by the parser, only by field accesses on objects lacking the field). -/
inductive Json where
  | null : Json
  | undef : Json
  | bool : Bool → Json
  | num : Int → Json
  | str : String → Json
  | arr : List Json → Json
  | obj : List (String × Json) → Json
deriving Repr

instance : Inhabited Json := ⟨Json.null⟩

namespace Json

mutual

/-- Structural equality of JS values (used to model the `Set`-based
deduplication, whose keys here are strings; `SameValueZero` coincides
with structural equality on the primitive values that occur). -/
def eqb (x y : Json) : Bool :=
  match x, y with
  | .undef, .undef => true
  | .null, .null => true
  | .bool p, .bool q => p == q
  | .str p, .str q => p == q
  | .num p, .num q => p == q
  | .arr ps, .arr qs => eqbArr ps qs
  | .obj ps, .obj qs => eqbObj ps qs
  | _, _ => false

def eqbArr (xs ys : List Json) : Bool :=
  match xs, ys with
  | [], [] => true
  | p :: ps, q :: qs => eqb p q && eqbArr ps qs
  | _, _ => false

def eqbObj (xs ys : List (String × Json)) : Bool :=
  match xs, ys with
  | [], [] => true
  | (ka, va) :: ps, (kb, vb) :: qs => ka == kb && eqb va vb && eqbObj ps qs
  | _, _ => false

end

mutual

theorem eqb_iff_eq : ∀ x y : Json, eqb x y = true ↔ x = y
  | .null, y => by cases y <;> simp [eqb]
  | .undef, y => by cases y <;> simp [eqb]
  | .bool _, y => by cases y <;> simp [eqb]
  | .num _, y => by cases y <;> simp [eqb]
  | .str _, y => by cases y <;> simp [eqb]
  | .arr ps, y => by
      cases y <;> simp [eqb]
      exact eqbArr_iff_eq ps _
  | .obj ps, y => by
      cases y <;> simp [eqb]
      exact eqbObj_iff_eq ps _

theorem eqbArr_iff_eq : ∀ xs ys : List Json, eqbArr xs ys = true ↔ xs = ys
  | [], ys => by cases ys <;> simp [eqbArr]
  | p :: ps, ys => by
      cases ys with
      | nil => simp [eqbArr]
      | cons q qs =>
        simp [eqbArr, Bool.and_eq_true]
        exact and_congr (eqb_iff_eq p q) (eqbArr_iff_eq ps qs)

theorem eqbObj_iff_eq :
    ∀ xs ys : List (String × Json), eqbObj xs ys = true ↔ xs = ys
  | [], ys => by cases ys <;> simp [eqbObj]
  | (ka, va) :: ps, ys => by
      cases ys with
      | nil => simp [eqbObj]
      | cons q qs =>
        obtain ⟨kb, vb⟩ := q
        simp [eqbObj, Bool.and_eq_true, and_assoc]
        intro _
        exact and_congr (eqb_iff_eq va vb) (eqbObj_iff_eq ps qs)

end

instance : DecidableEq Json := fun a b =>
  decidable_of_iff (eqb a b = true) (eqb_iff_eq a b)

end Json

/-! ## String scanning utilities

These model the JavaScript string operations used by the extraction
code: `String.prototype.includes`, and the literal-prefix regex
searches of the three `extractJSON` fallback chains. -/

/-- Index of the first occurrence of `pat` in `s` (`none` if absent),
on character lists. -/
def findPat (pat : List Char) : List Char → Option Nat
  | [] => if pat.isPrefixOf [] then some 0 else none
  | c :: rest =>
    if pat.isPrefixOf (c :: rest) then some 0
    else (findPat pat rest).map (· + 1)

/-- JS `haystack.includes(needle)`. -/
def jsIncludes (haystack needle : String) : Bool :=
  (findPat needle.data haystack.data).isSome

/-- `String.prototype.trim`: strip leading and trailing whitespace
(structural char-list implementation, so that proofs can evaluate it). -/
def jsTrim (s : String) : String :=
  String.mk (((s.data.dropWhile Char.isWhitespace).reverse.dropWhile
    Char.isWhitespace).reverse)

/-- `String.prototype.substring(0, n)` / first-`n`-characters. -/
def jsTake (s : String) (n : Nat) : String :=
  String.mk (s.data.take n)

/-- `String.prototype.split(sep)` for a non-empty separator (the fuel
argument only bounds the recursion; it is never exhausted for a
non-empty separator). -/
def jsSplit (s sep : String) : List String :=
  (splitAux s.data.length s.data).map String.mk
where
  splitAux : Nat → List Char → List (List Char)
    | _, [] => [[]]
    | 0, l => [l]
    | n + 1, c :: rest =>
      if sep.data.isPrefixOf (c :: rest) then
        [] :: splitAux n ((c :: rest).drop sep.data.length)
      else
        match splitAux n rest with
        | [] => [[c]]
        | part :: parts => (c :: part) :: parts

/-! ## `JSON.parse` model

A fuel-bounded recursive-descent parser for JSON text, modelling the JS
builtin `JSON.parse`.  Numeric literals are modelled as integers
(fraction/exponent forms are not modelled; no value in this repository's
data uses them).  Per ECMA-262's `JSON.parse`, a repeated object key
keeps the position of its first occurrence and the value of its last. -/

/-- JS object property write used to model spread/`JSON.parse` key
handling: replace the value of an existing key in place, else append. -/
def setKV (fs : List (String × Json)) (k : String) (v : Json) :
    List (String × Json) :=
  if fs.any (fun f => f.1 == k) then
    fs.map (fun f => if f.1 == k then (f.1, v) else f)
  else fs ++ [(k, v)]

namespace JsonParse

def isWs (c : Char) : Bool :=
  c = ' ' || c = '\t' || c = '\n' || c = '\r'

def skipWs : List Char → List Char
  | [] => []
  | c :: rest => if isWs c then skipWs rest else c :: rest

def isDigitCh (c : Char) : Bool := '0' ≤ c ∧ c ≤ '9'

def digitVal (c : Char) : Nat := c.toNat - '0'.toNat

/-- Read a maximal run of decimal digits; fails on an empty run. -/
def readDigits (acc : Nat) : List Char → Option (Nat × List Char)
  | [] => some (acc, [])
  | c :: rest =>
    if isDigitCh c then
      match readDigits (acc * 10 + digitVal c) rest with
      | some r => some r
      | none => none
    else some (acc, c :: rest)

def readNum : List Char → Option (Int × List Char)
  | '-' :: c :: rest =>
    if isDigitCh c then
      (readDigits (digitVal c) rest).map (fun p => (-(p.1 : Int), p.2))
    else none
  | c :: rest =>
    if isDigitCh c then
      (readDigits (digitVal c) rest).map (fun p => ((p.1 : Int), p.2))
    else none
  | [] => none

def hexVal (c : Char) : Option Nat :=
  if isDigitCh c then some (digitVal c)
  else if 'a' ≤ c ∧ c ≤ 'f' then some (c.toNat - 'a'.toNat + 10)
  else if 'A' ≤ c ∧ c ≤ 'F' then some (c.toNat - 'A'.toNat + 10)
  else none

/-- Read the remainder of a string literal after the opening quote. -/
def readStr (acc : List Char) : List Char → Option (String × List Char)
  | [] => none
  | '"' :: rest => some (String.mk acc.reverse, rest)
  | '\\' :: e :: rest =>
    match e with
    | '"' => readStr ('"' :: acc) rest
    | '\\' => readStr ('\\' :: acc) rest
    | '/' => readStr ('/' :: acc) rest
    | 'n' => readStr ('\n' :: acc) rest
    | 't' => readStr ('\t' :: acc) rest
    | 'r' => readStr ('\r' :: acc) rest
    | 'b' => readStr ('\x08' :: acc) rest
    | 'f' => readStr ('\x0c' :: acc) rest
    | 'u' =>
      match rest with
      | a :: b :: c :: d :: rest' =>
        match hexVal a, hexVal b, hexVal c, hexVal d with
        | some x, some y, some z, some w =>
          let n := ((x * 16 + y) * 16 + z) * 16 + w
          readStr (Char.ofNat n :: acc) rest'
        | _, _, _, _ => none
      | _ => none
    | _ => none
  | c :: rest => if c = '"' then none else readStr (c :: acc) rest

mutual

/-- Parse one JSON value (leading whitespace allowed), returning it and
the unconsumed remainder. -/
def parseVal : Nat → List Char → Option (Json × List Char)
  | 0, _ => none
  | fuel + 1, cs =>
    match skipWs cs with
    | 'n' :: 'u' :: 'l' :: 'l' :: rest => some (.null, rest)
    | 't' :: 'r' :: 'u' :: 'e' :: rest => some (.bool true, rest)
    | 'f' :: 'a' :: 'l' :: 's' :: 'e' :: rest => some (.bool false, rest)
    | '"' :: rest => (readStr [] rest).map (fun p => (.str p.1, p.2))
    | '[' :: rest =>
      (match skipWs rest with
       | ']' :: rest' => some (.arr [], rest')
       | other => (parseElems fuel other).map (fun p => (.arr p.1, p.2)))
    | '\x7b' :: rest =>
      (match skipWs rest with
       | '\x7d' :: rest' => some (.obj [], rest')
       | other =>
         (parseFields fuel other).map
           (fun p => (.obj (p.1.foldl (fun fs kv => setKV fs kv.1 kv.2) []), p.2)))
    | other => (readNum other).map (fun p => (.num p.1, p.2))

/-- Parse a nonempty comma-separated list of values up to `]`. -/
def parseElems : Nat → List Char → Option (List Json × List Char)
  | 0, _ => none
  | fuel + 1, cs =>
    match parseVal fuel cs with
    | none => none
    | some (v, rest) =>
      match skipWs rest with
      | ',' :: rest' =>
        (parseElems fuel rest').map (fun p => (v :: p.1, p.2))
      | ']' :: rest' => some ([v], rest')
      | _ => none

/-- Parse a nonempty comma-separated list of `"key": value` pairs up to
`}`. -/
def parseFields : Nat → List Char → Option (List (String × Json) × List Char)
  | 0, _ => none
  | fuel + 1, cs =>
    match skipWs cs with
    | '"' :: rest =>
      match readStr [] rest with
      | none => none
      | some (k, rest') =>
        match skipWs rest' with
        | ':' :: rest'' =>
          match parseVal fuel rest'' with
          | none => none
          | some (v, rest''') =>
            match skipWs rest''' with
            | ',' :: more =>
              (parseFields fuel more).map (fun p => ((k, v) :: p.1, p.2))
            | '\x7d' :: more => some ([(k, v)], more)
            | _ => none
        | _ => none
    | _ => none

end

end JsonParse

/-- `JSON.parse(text)`: parse the whole text (surrounding whitespace
allowed), `none` on any syntax error. -/
def jsonParse (text : String) : Option Json :=
  match JsonParse.parseVal (2 * text.length + 4) text.data with
  | some (v, rest) => if JsonParse.skipWs rest = [] then some v else none
  | none => none

namespace Json

/-- JS property read `o.k`: first binding of `k` in the object, `none`
when the receiver is not an object or lacks the property (JS would give
`undefined`). -/
def getField (j : Json) (k : String) : Option Json :=
  match j with
  | .obj fields => (fields.find? (fun f => f.1 == k)).map (·.2)
  | _ => none

/-- JS truthiness of a value (`if (v)`); `NaN` does not arise because
numbers are modelled as integers. -/
def truthy : Json → Bool
  | .null => false
  | .undef => false
  | .bool b => b
  | .num n => n != 0
  | .str s => s ≠ ""
  | .arr _ => true
  | .obj _ => true

end Json

/-! ## The extraction fallback chains

The repository has three copies of `extractJSON` (scout.js, explorer.js
and the Gemini api server in planner.js).  All three try `JSON.parse`
directly, then a ```` ```json ```` fenced block, then a greedy
first-`{`-to-last-`}` match; the planner copy additionally tries a
generic fenced block and a greedy first-`[`-to-last-`]` match whose
result is wrapped as `{ itinerary: ... }`.  The regex searches are
modelled literally: the lazy fenced-block capture is the text between the
(case-insensitive) opening fence and the next closing fence, with the
surrounding `\s*` whitespace stripped, and an empty capture is falsy and
skipped. -/

/-- Interior of the first ```` ```json ... ``` ```` fenced block
(`/```json\s*([\s\S]*?)\s*```/i`): text between the first
case-insensitive occurrence of `` ```json `` and the next `` ``` ``. -/
def fencedJsonSpan (s : List Char) : Option (List Char) :=
  match findPat "```json".data (s.map Char.toLower) with
  | none => none
  | some i =>
    let rest := s.drop (i + 7)
    match findPat "```".data rest with
    | none => none
    | some j => some (rest.take j)

/-- Strategy: parse the interior of a ```` ```json ```` fenced block
(`JSON.parse(codeBlockMatch[1].trim())`, skipped when the capture is
empty/falsy). -/
def tryFencedJson (text : String) : Option Json :=
  match fencedJsonSpan text.data with
  | none => none
  | some interior =>
    let t := jsTrim (String.mk interior)
    if t = "" then none else jsonParse t

/-- Interior of the first generic ```` ``` ... ``` ```` fenced block
(`/```\s*([\s\S]*?)\s*```/`). -/
def fencedAnySpan (s : List Char) : Option (List Char) :=
  match findPat "```".data s with
  | none => none
  | some i =>
    let rest := s.drop (i + 3)
    match findPat "```".data rest with
    | none => none
    | some j => some (rest.take j)

/-- Strategy (planner only): parse a generic fenced block whose trimmed
interior starts with a brace or bracket. -/
def tryFencedAny (text : String) : Option Json :=
  match fencedAnySpan text.data with
  | none => none
  | some interior =>
    let t := jsTrim (String.mk interior)
    if "\x7b".data.isPrefixOf t.data || "[".data.isPrefixOf t.data then
      jsonParse t
    else none

/-- Greedy `/\{[\s\S]*\}/` match: the span from the first `{` to the
last `}`, when the former precedes the latter. -/
def braceSpan (s : List Char) : Option (List Char) :=
  match s.findIdx? (fun c => c = '\x7b') with
  | none => none
  | some i =>
    match (s.reverse.findIdx? (fun c => c = '\x7d')).map
        (fun jr => s.length - 1 - jr) with
    | none => none
    | some j => if i < j then some ((s.drop i).take (j - i + 1)) else none

/-- Strategy: parse the greedy first-`{`-to-last-`}` span. -/
def tryBrace (text : String) : Option Json :=
  (braceSpan text.data).bind (fun cs => jsonParse (String.mk cs))

/-- Greedy `/\[[\s\S]*\]/` match: first `[` to last `]`. -/
def bracketSpan (s : List Char) : Option (List Char) :=
  match s.findIdx? (fun c => c = '[') with
  | none => none
  | some i =>
    match (s.reverse.findIdx? (fun c => c = ']')).map
        (fun jr => s.length - 1 - jr) with
    | none => none
    | some j => if i < j then some ((s.drop i).take (j - i + 1)) else none

/-- Strategy (planner only): parse the greedy bracket span and wrap the
result as `{ itinerary: <value> }`. -/
def tryBracketWrap (text : String) : Option Json :=
  ((bracketSpan text.data).bind (fun cs => jsonParse (String.mk cs))).map
    (fun v => Json.obj [("itinerary", v)])

/-- `extractJSON` of scout.js: direct parse, then ```` ```json ````
block, then greedy brace match, else throw. -/
def extractJSONScout (text : String) : Except String Json :=
  match jsonParse text with
  | some v => .ok v
  | none =>
    match tryFencedJson text with
    | some v => .ok v
    | none =>
        match tryBrace text with
        | some v => .ok v
        | none => .error "Could not extract JSON from Scout response"

/-- `extractJSON` of explorer.js: the same chain as scout.js with its
own error message. -/
def extractJSONExplorer (text : String) : Except String Json :=
  match jsonParse text with
  | some v => .ok v
  | none =>
    match tryFencedJson text with
    | some v => .ok v
    | none =>
        match tryBrace text with
        | some v => .ok v
        | none => .error "Could not extract JSON from Explorer response"

/-- `extractJSON` of the Gemini api server in planner.js (the itinerary
call site): direct parse, ```` ```json ```` block, generic fenced block
starting with `{`/`[`, greedy brace match, then greedy bracket match
wrapped as `{ itinerary: ... }`, else throw. -/
def extractJSONPlanner (text : String) : Except String Json :=
  match jsonParse text with
  | some v => .ok v
  | none =>
    match tryFencedJson text with
    | some v => .ok v
    | none =>
      match tryFencedAny text with
      | some v => .ok v
      | none =>
        match tryBrace text with
        | some v => .ok v
        | none =>
          match tryBracketWrap text with
          | some v => .ok v
          | none =>
            .error ("Could not extract valid JSON from response. First 200 chars: "
              ++ jsTake text 200)

/-! ## JS `Date` calendar-day model

`new Date("YYYY-MM-DD")` denotes UTC midnight of a calendar day; its
value is modelled by the day number `daysFromCivil` (days since
1970-01-01, Howard Hinnant's civil-calendar algorithm, which is what the
ECMAScript day-number arithmetic computes).  `toISOString().split("T")[0]`
is modelled by `formatCivil ∘ civilFromDays`.  An out-of-range or
malformed date string denotes an Invalid Date; every `<=` comparison
with it is false. -/

structure Civil where
  y : Int
  m : Int
  d : Int
deriving DecidableEq, Repr

def isLeap (y : Int) : Bool := (y % 4 = 0 ∧ y % 100 ≠ 0) ∨ y % 400 = 0

def daysInMonth (y m : Int) : Int :=
  if m = 2 then (if isLeap y then 29 else 28)
  else if m = 4 ∨ m = 6 ∨ m = 9 ∨ m = 11 then 30
  else 31

/-- Days since 1970-01-01 of a civil date (Hinnant's `days_from_civil`;
integer division is C-style truncation, applied to non-negative operands
only). -/
def daysFromCivil (c : Civil) : Int :=
  let y := if c.m ≤ 2 then c.y - 1 else c.y
  let era := (if 0 ≤ y then y else y - 399) / 400
  let yoe := y - era * 400
  let mp := (c.m + 9) % 12
  let doy := (153 * mp + 2) / 5 + c.d - 1
  let doe := yoe * 365 + yoe / 4 - yoe / 100 + doy
  era * 146097 + doe - 719468

/-- Civil date of a days-since-epoch number (Hinnant's
`civil_from_days`). -/
def civilFromDays (z0 : Int) : Civil :=
  let z := z0 + 719468
  let era := (if 0 ≤ z then z else z - 146096) / 146097
  let doe := z - era * 146097
  let yoe := (doe - doe / 1460 + doe / 36524 - doe / 146096) / 365
  let y := yoe + era * 400
  let doy := doe - (365 * yoe + yoe / 4 - yoe / 100)
  let mp := (5 * doy + 2) / 153
  let d := doy - (153 * mp + 2) / 5 + 1
  let m := mp + (if mp < 10 then 3 else -9)
  ⟨if m ≤ 2 then y + 1 else y, m, d⟩

def digitsToNat (cs : List Char) : Nat :=
  cs.foldl (fun acc c => acc * 10 + JsonParse.digitVal c) 0

/-- Parse a strict `YYYY-MM-DD` string to a valid civil date
(`none` models an Invalid Date). -/
def parseDate (s : String) : Option Civil :=
  match s.data with
  | [y1, y2, y3, y4, '-', m1, m2, '-', d1, d2] =>
    if [y1, y2, y3, y4, m1, m2, d1, d2].all JsonParse.isDigitCh then
      let y : Int := digitsToNat [y1, y2, y3, y4]
      let m : Int := digitsToNat [m1, m2]
      let d : Int := digitsToNat [d1, d2]
      if 1 ≤ m ∧ m ≤ 12 ∧ 1 ≤ d ∧ d ≤ daysInMonth y m then
        some ⟨y, m, d⟩
      else none
    else none
  | _ => none

def digitCh (d : Nat) : Char := Char.ofNat ('0'.toNat + d)

/-- Two-digit zero-padded decimal (months, days, hours, ...). -/
def pad2 (n : Nat) : String :=
  String.mk [digitCh (n / 10 % 10), digitCh (n % 10)]

/-- Four-digit zero-padded decimal (years in `toISOString`). -/
def pad4 (n : Nat) : String :=
  String.mk [digitCh (n / 1000 % 10), digitCh (n / 100 % 10),
    digitCh (n / 10 % 10), digitCh (n % 10)]

/-- `toISOString().split("T")[0]` of a UTC-midnight date. -/
def formatCivil (c : Civil) : String :=
  pad4 c.y.toNat ++ "-" ++ pad2 c.m.toNat ++ "-" ++ pad2 c.d.toNat

/-- The day numbers from `a` to `b` inclusive (empty when `a > b`);
the `while (current <= end)` loop, with the iteration count made
explicit so the definition evaluates structurally. -/
def dayRangeLoop (a b : Int) : List Int :=
  loop ((b + 1 - a).toNat) a
where
  loop : Nat → Int → List Int
    | 0, _ => []
    | n + 1, x => x :: loop n (x + 1)

/-- `getDateRange(startDate, endDate)` of scout.js, and the identical
date-initialization loop of `analyzeEventCoverage` in api_server.js:
push `current.toISOString().split("T")[0]` while `current <= end`,
stepping one day.  With an Invalid Date bound the comparison is false
and the result is empty. -/
def jsDateRange (startDate endDate : String) : List String :=
  match parseDate startDate, parseDate endDate with
  | some c1, some c2 =>
    (dayRangeLoop (daysFromCivil c1) (daysFromCivil c2)).map
      (fun z => formatCivil (civilFromDays z))
  | _, _ => []

deriving instance DecidableEq for Except

/-! ## Claim C3: the JSON extractor at the itinerary call site -/

/-- C3 counterexample: given the text `"[1,2,3]"`, the planner's
`extractJSON` returns the bare array `[1,2,3]` — the direct `JSON.parse`
succeeds at step 1, so the `{ itinerary: ... }` wrap of the final
fallback never runs — and that value is not `{itinerary:[1,2,3]}` as the
claim states. -/
theorem extractJSON_bare_array_direct_parse :
    extractJSONPlanner "[1,2,3]"
      = .ok (.arr [.num 1, .num 2, .num 3]) ∧
    Json.arr [.num 1, .num 2, .num 3]
      ≠ Json.obj [("itinerary", .arr [.num 1, .num 2, .num 3])] :=
  ⟨rfl, nofun⟩

/-- C3 (amended): the fenced-block text yields `{a:1}`, the noise-wrapped
object yields `{a:1}`, the bare `"[1,2,3]"` yields the array itself (the
`{itinerary: ...}` wrap applies only when the array is recovered by the
final fallback, e.g. from `"noise [1,2,3] noise"`), and when no fallback
strategy recovers JSON the extractor fails with the extraction error. -/
theorem extractJSON_planner_cases :
    extractJSONPlanner "prefix text ```json\n\x7b\"a\":1\x7d\n``` suffix"
      = .ok (.obj [("a", .num 1)]) ∧
    extractJSONPlanner "noise \x7b\"a\":1\x7d noise"
      = .ok (.obj [("a", .num 1)]) ∧
    extractJSONPlanner "[1,2,3]" = .ok (.arr [.num 1, .num 2, .num 3]) ∧
    extractJSONPlanner "noise [1,2,3] noise"
      = .ok (.obj [("itinerary", .arr [.num 1, .num 2, .num 3])]) ∧
    (∀ t : String, jsonParse t = none → tryFencedJson t = none →
      tryFencedAny t = none → tryBrace t = none → tryBracketWrap t = none →
      extractJSONPlanner t
        = .error ("Could not extract valid JSON from response. First 200 chars: "
            ++ jsTake t 200)) := by
  refine ⟨by decide, by decide, by decide, by decide, fun t h1 h2 h3 h4 h5 => ?_⟩
  simp [extractJSONPlanner, h1, h2, h3, h4, h5]

/-- C3 witness: the failure branch at the concrete unparseable input. -/
theorem extractJSON_planner_cases_witness :
    extractJSONPlanner "unparseable garbage"
      = .error ("Could not extract valid JSON from response. First 200 chars: "
          ++ jsTake "unparseable garbage" 200) :=
  extractJSON_planner_cases.2.2.2.2 "unparseable garbage" rfl rfl rfl rfl rfl

/-! ## Scout (scout.js)

The upstream search-augmented generation call
(`ai.models.generateContent` on the prompt built from an interest, the
city and a date) is modelled as a function from those three inputs to
either a thrown error message or the response text; the prompt itself is
pure string construction and carries no further information.  The
wall-clock timestamp `new Date().toISOString()` recorded on each
collected link is modelled by the `now` parameter. -/

/-- `v || []` followed by iteration: the elements when the value is an
array, else nothing (a truthy non-array value would crash the iteration
in the source and is outside the model). -/
def asArray : Option Json → List Json
  | some (.arr xs) => xs
  | _ => []

/-- The result object of `searchForInterest` (the locale-formatted
`queries_used` diagnostic field is omitted from the model). -/
structure SearchResult where
  success : Bool
  interest : String
  city : String
  date : String
  links : List Json
  error : Option String
deriving DecidableEq, Repr

/-- `searchForInterest(interest, city, date)`: one upstream call; on a
thrown upstream error or extraction failure it returns a `success:false`
result with empty links instead of raising. -/
def searchForInterest (upstream : String → String → String → Except String String)
    (interest city date : String) : SearchResult :=
  match upstream interest city date with
  | .error m => ⟨false, interest, city, date, [], some m⟩
  | .ok text =>
    match extractJSONScout text with
    | .error m => ⟨false, interest, city, date, [], some m⟩
    | .ok j => ⟨true, interest, city, date, asArray (j.getField "links"), none⟩

/-- `{...link, interest, date, searchedAt}`: the link's own properties
followed by the three annotations (overriding in place if present).  A
non-object link spreads nothing. -/
def annotateLink (link : Json) (interest date now : String) : Json :=
  let fs := match link with
    | .obj fs => fs
    | _ => []
  .obj (setKV (setKV (setKV fs "interest" (.str interest))
    "date" (.str date)) "searchedAt" (.str now))

/-- Inner loop of the sweep: one `searchForInterest` call per date, in
order, pushing the result object and the annotated links. -/
def sweepDates (upstream : String → String → String → Except String String)
    (city now interest : String) :
    List String → List SearchResult × List Json
  | [] => ([], [])
  | d :: ds =>
    let r := searchForInterest upstream interest city d
    let annotated := r.links.map (fun l => annotateLink l interest d now)
    let rest := sweepDates upstream city now interest ds
    (r :: rest.1, annotated ++ rest.2)

/-- Outer loop of the sweep, over the interests. -/
def sweepInterests (upstream : String → String → String → Except String String)
    (city now : String) (dates : List String) :
    List String → List SearchResult × List Json
  | [] => ([], [])
  | i :: is =>
    let this := sweepDates upstream city now i dates
    let rest := sweepInterests upstream city now dates is
    (this.1 ++ rest.1, this.2 ++ rest.2)

/-- First-occurrence deduplication by a key: the `seen`-`Set` + push
loop shared by Scout (key `link.url`) and Explorer (key
`` `${name}-${start_time}` ``). -/
def dedupByKey {α β : Type} [DecidableEq β] (k : α → β) :
    List α → List β → List α
  | [], _ => []
  | x :: xs, seen =>
    if k x ∈ seen then dedupByKey k xs seen
    else x :: dedupByKey k xs (k x :: seen)

/-- The aggregate result of `scoutEvents` (its `city`, `interests` and
date fields are carried unchanged and omitted here). -/
structure ScoutResult where
  searchResults : List SearchResult
  allLinks : List Json
  totalLinksFound : Nat
deriving DecidableEq, Repr

/-- The dedup key of a collected link: `link.url` (a missing property
reads as `undefined`, which the `Set` stores like any other value). -/
def urlKey (l : Json) : Option Json := l.getField "url"

/-- `scoutEvents(city, interests, startDate, endDate)`: sweep every
interest over every day of the range, collect annotated links, then
deduplicate by `url` keeping the first occurrence. -/
def scoutEvents (upstream : String → String → String → Except String String)
    (city : String) (interests : List String)
    (startDate endDate now : String) : ScoutResult :=
  let dates := jsDateRange startDate endDate
  let sweep := sweepInterests upstream city now dates interests
  let uniqueLinks := dedupByKey urlKey sweep.2 []
  ⟨sweep.1, uniqueLinks, uniqueLinks.length⟩

/-! ### Properties of first-occurrence deduplication -/

theorem dedupByKey_filter {α β : Type} [DecidableEq β] (k : α → β) (b : β) :
    ∀ (l : List α) (seen : List β),
      (dedupByKey k l seen).filter (fun x => decide (k x = b))
        = if b ∈ seen then []
          else (l.filter (fun x => decide (k x = b))).take 1 := by
  intro l
  induction l with
  | nil => intro seen; simp [dedupByKey]
  | cons x xs ih =>
    intro seen
    by_cases hx : k x ∈ seen
    · rw [dedupByKey, if_pos hx, ih]
      by_cases hb : b ∈ seen
      · simp [hb]
      · have hne : ¬(k x = b) := fun h => hb (h ▸ hx)
        simp [hb, List.filter_cons, hne]
    · rw [dedupByKey, if_neg hx]
      by_cases hxb : k x = b
      · subst hxb
        have hb : k x ∉ seen := hx
        rw [List.filter_cons_of_pos (by simp), ih]
        simp [hb, List.filter_cons_of_pos (show decide (k x = k x) = true by simp)]
      · rw [List.filter_cons_of_neg (by simp [hxb]), ih]
        by_cases hb : b ∈ seen
        · simp [hb]
        · have hnotc : b ∉ k x :: seen := by
            intro h
            rcases List.mem_cons.1 h with h | h
            · exact hxb h.symm
            · exact hb h
          rw [if_neg hnotc, if_neg hb, List.filter_cons_of_neg (by simp [hxb])]

theorem dedupByKey_sublist {α β : Type} [DecidableEq β] (k : α → β) :
    ∀ (l : List α) (seen : List β), (dedupByKey k l seen).Sublist l := by
  intro l
  induction l with
  | nil => intro seen; simp [dedupByKey]
  | cons x xs ih =>
    intro seen
    rw [dedupByKey]
    by_cases hx : k x ∈ seen
    · rw [if_pos hx]; exact (ih seen).cons x
    · rw [if_neg hx]; exact (ih (k x :: seen)).cons₂ x

theorem dedupByKey_mem_keys {α β : Type} [DecidableEq β] (k : α → β) (b : β) :
    ∀ (l : List α) (seen : List β),
      b ∈ (dedupByKey k l seen).map k ↔ b ∈ l.map k ∧ b ∉ seen := by
  intro l
  induction l with
  | nil => intro seen; simp [dedupByKey]
  | cons x xs ih =>
    intro seen
    rw [dedupByKey]
    by_cases hx : k x ∈ seen
    · rw [if_pos hx, ih]
      simp only [List.map_cons, List.mem_cons]
      constructor
      · rintro ⟨h1, h2⟩; exact ⟨Or.inr h1, h2⟩
      · rintro ⟨h1 | h1, h2⟩
        · exact absurd (h1 ▸ hx) h2
        · exact ⟨h1, h2⟩
    · rw [if_neg hx]
      simp only [List.map_cons, List.mem_cons, ih, List.mem_cons]
      constructor
      · rintro (h | ⟨h1, h2⟩)
        · exact ⟨Or.inl h, h ▸ hx⟩
        · exact ⟨Or.inr h1, fun hb => h2 (Or.inr hb)⟩
      · rintro ⟨h1 | h1, h2⟩
        · exact Or.inl h1
        · by_cases hbx : b = k x
          · exact Or.inl hbx
          · exact Or.inr ⟨h1, fun hb => by
              rcases hb with h | h
              · exact hbx h
              · exact h2 h⟩

theorem dedupByKey_keys_nodup {α β : Type} [DecidableEq β] (k : α → β) :
    ∀ (l : List α) (seen : List β),
      ((dedupByKey k l seen).map k).Nodup
        ∧ ∀ b ∈ (dedupByKey k l seen).map k, b ∉ seen := by
  intro l
  induction l with
  | nil => intro seen; simp [dedupByKey]
  | cons x xs ih =>
    intro seen
    rw [dedupByKey]
    by_cases hx : k x ∈ seen
    · rw [if_pos hx]; exact ih seen
    · rw [if_neg hx]
      obtain ⟨hnd, hns⟩ := ih (k x :: seen)
      refine ⟨?_, ?_⟩
      · simp only [List.map_cons, List.nodup_cons]
        exact ⟨fun hmem => (hns _ hmem) (List.mem_cons_self _ _), hnd⟩
      · intro b hb
        rw [List.map_cons, List.mem_cons] at hb
        rcases hb with h | h
        · exact h ▸ hx
        · exact fun hbs => hns b h (List.mem_cons_of_mem _ hbs)

theorem dedupByKey_length {α β : Type} [DecidableEq β] (k : α → β) (l : List α) :
    (dedupByKey k l []).length = (l.map k).dedup.length := by
  have h1 : ((dedupByKey k l []).map k).Nodup := (dedupByKey_keys_nodup k l []).1
  have h2 : ((l.map k).dedup).Nodup := List.nodup_dedup _
  have hperm : List.Perm ((dedupByKey k l []).map k) (l.map k).dedup := by
    rw [List.perm_ext_iff_of_nodup h1 h2]
    intro b
    rw [dedupByKey_mem_keys, List.mem_dedup]
    simp
  have := hperm.length_eq
  simpa using this

/-! ### Structure of the Scout sweep -/

theorem sweepDates_fst (u : String → String → String → Except String String)
    (city now interest : String) :
    ∀ ds : List String,
      (sweepDates u city now interest ds).1
        = ds.map (fun d => searchForInterest u interest city d) := by
  intro ds
  induction ds with
  | nil => rfl
  | cons d ds ih => simp [sweepDates, ih]

theorem sweepInterests_fst (u : String → String → String → Except String String)
    (city now : String) (dates : List String) :
    ∀ is : List String,
      (sweepInterests u city now dates is).1
        = is.flatMap (fun i => dates.map (fun d => searchForInterest u i city d)) := by
  intro is
  induction is with
  | nil => rfl
  | cons i is ih => simp [sweepInterests, ih, sweepDates_fst]

theorem dayRangeLoop_loop_eq (n : Nat) :
    ∀ x : Int, dayRangeLoop.loop n x
      = (List.range n).map (fun (kk : Nat) => x + (kk : Int)) := by
  induction n with
  | zero => intro x; rfl
  | succ n ih =>
    intro x
    have hstep : dayRangeLoop.loop (n + 1) x = x :: dayRangeLoop.loop n (x + 1) := rfl
    rw [hstep, ih, List.range_succ_eq_map]
    simp only [List.map_cons, List.map_map]
    congr 1
    · simp
    · congr 1
      funext kk
      simp only [Function.comp_apply]
      push_cast
      ring

theorem searchForInterest_interest
    (u : String → String → String → Except String String)
    (i city d : String) : (searchForInterest u i city d).interest = i := by
  unfold searchForInterest
  cases u i city d with
  | error m => rfl
  | ok t =>
    dsimp only
    cases h : extractJSONScout t <;> rfl

theorem searchForInterest_date
    (u : String → String → String → Except String String)
    (i city d : String) : (searchForInterest u i city d).date = d := by
  unfold searchForInterest
  cases u i city d with
  | error m => rfl
  | ok t =>
    dsimp only
    cases h : extractJSONScout t <;> rfl

theorem scout_searchResults_flatMap
    (u : String → String → String → Except String String)
    (city : String) (interests : List String) (startDate endDate now : String) :
    (scoutEvents u city interests startDate endDate now).searchResults
      = interests.flatMap (fun i => (jsDateRange startDate endDate).map
          (fun d => searchForInterest u i city d)) := by
  show (sweepInterests u city now (jsDateRange startDate endDate) interests).1 = _
  rw [sweepInterests_fst]

theorem scout_searchResults_pairs
    (u : String → String → String → Except String String)
    (city : String) (interests : List String) (startDate endDate now : String) :
    (scoutEvents u city interests startDate endDate now).searchResults.map
        (fun r => (r.interest, r.date))
      = interests.flatMap (fun i => (jsDateRange startDate endDate).map
          (fun d => (i, d))) := by
  rw [scout_searchResults_flatMap]
  induction interests with
  | nil => rfl
  | cons i is ih =>
    simp only [List.flatMap_cons, List.map_append, ih, List.map_map]
    congr 1
    apply List.map_congr_left
    intro d _
    simp [Function.comp, searchForInterest_interest, searchForInterest_date]

theorem scout_searchResults_length
    (u : String → String → String → Except String String)
    (city : String) (interests : List String) (startDate endDate now : String) :
    (scoutEvents u city interests startDate endDate now).searchResults.length
      = interests.length * (jsDateRange startDate endDate).length := by
  rw [scout_searchResults_flatMap]
  induction interests with
  | nil => simp
  | cons i is ih =>
    simp only [List.flatMap_cons, List.length_append, List.length_map, ih,
      List.length_cons]
    ring

theorem jsDateRange_eq (s e : String) (c1 c2 : Civil)
    (h1 : parseDate s = some c1) (h2 : parseDate e = some c2) :
    jsDateRange s e
      = (List.range (daysFromCivil c2 + 1 - daysFromCivil c1).toNat).map
          (fun (kk : Nat) => formatCivil (civilFromDays (daysFromCivil c1 + kk))) := by
  unfold jsDateRange dayRangeLoop
  rw [h1, h2]
  dsimp only
  rw [dayRangeLoop_loop_eq, List.map_map]
  rfl

/-! ## Claim C6: one upstream search request per (interest, day) pair -/

/-- C6: the search results of `scoutEvents` are exactly one
`searchForInterest` call per interest and per day of the inclusive date
range, in sweep order; their count is `#interests * #days`; and for
valid bounds the day list enumerates the consecutive calendar days from
`startDate` to `endDate` inclusive. -/
theorem scoutEvents_one_call_per_pair
    (upstream : String → String → String → Except String String)
    (city : String) (interests : List String) (startDate endDate now : String) :
    (scoutEvents upstream city interests startDate endDate now).searchResults
      = interests.flatMap (fun i => (jsDateRange startDate endDate).map
          (fun d => searchForInterest upstream i city d)) ∧
    (scoutEvents upstream city interests startDate endDate now).searchResults.map
        (fun r => (r.interest, r.date))
      = interests.flatMap (fun i => (jsDateRange startDate endDate).map
          (fun d => (i, d))) ∧
    (scoutEvents upstream city interests startDate endDate now).searchResults.length
      = interests.length * (jsDateRange startDate endDate).length ∧
    (∀ c1 c2 : Civil, parseDate startDate = some c1 → parseDate endDate = some c2 →
      jsDateRange startDate endDate
        = (List.range (daysFromCivil c2 + 1 - daysFromCivil c1).toNat).map
            (fun (kk : Nat) => formatCivil (civilFromDays (daysFromCivil c1 + kk)))) :=
  ⟨scout_searchResults_flatMap upstream city interests startDate endDate now,
   scout_searchResults_pairs upstream city interests startDate endDate now,
   scout_searchResults_length upstream city interests startDate endDate now,
   fun c1 c2 h1 h2 => jsDateRange_eq startDate endDate c1 c2 h1 h2⟩

/-- C6 witness: one interest over the two-day range 2026-01-03 to
2026-01-04 yields exactly two upstream calls. -/
theorem scoutEvents_one_call_per_pair_witness :
    (scoutEvents (fun _ _ _ => .error "api down") "New York" ["jazz"]
        "2026-01-03" "2026-01-04" "t0").searchResults.length = 2 ∧
    jsDateRange "2026-01-03" "2026-01-04" = ["2026-01-03", "2026-01-04"] := by
  have h := scoutEvents_one_call_per_pair (fun _ _ _ => .error "api down")
    "New York" ["jazz"] "2026-01-03" "2026-01-04" "t0"
  have hrange := h.2.2.2 ⟨2026, 1, 3⟩ ⟨2026, 1, 4⟩ (by decide) (by decide)
  refine ⟨?_, ?_⟩
  · rw [h.2.2.1]
    rw [hrange]
    decide
  · rw [hrange]
    decide

/-! ## Claim C2: Scout's deduplication by url -/

/-- C2: the `allLinks` of a `scoutEvents` run keep, for every url
occurring among the collected (annotated) links, exactly the first-seen
collected link — its annotation metadata included — and nothing else;
the urls of `allLinks` are pairwise distinct, and `totalLinksFound` is
the number of distinct urls among the collected links. -/
theorem scoutEvents_dedup_by_url
    (upstream : String → String → String → Except String String)
    (city : String) (interests : List String) (startDate endDate now : String) :
    (∀ l0 ∈ (sweepInterests upstream city now
        (jsDateRange startDate endDate) interests).2,
      ∃ first,
        ((sweepInterests upstream city now
            (jsDateRange startDate endDate) interests).2.filter
          (fun l => decide (urlKey l = urlKey l0))).head? = some first ∧
        (scoutEvents upstream city interests startDate endDate now).allLinks.filter
          (fun l => decide (urlKey l = urlKey l0)) = [first]) ∧
    ((scoutEvents upstream city interests startDate endDate now).allLinks.map
      urlKey).Nodup ∧
    (∀ l ∈ (scoutEvents upstream city interests startDate endDate now).allLinks,
      l ∈ (sweepInterests upstream city now
        (jsDateRange startDate endDate) interests).2) ∧
    (scoutEvents upstream city interests startDate endDate now).totalLinksFound
      = ((sweepInterests upstream city now
          (jsDateRange startDate endDate) interests).2.map urlKey).dedup.length := by
  have hall : (scoutEvents upstream city interests startDate endDate now).allLinks
      = dedupByKey urlKey (sweepInterests upstream city now
          (jsDateRange startDate endDate) interests).2 [] := rfl
  set collected := (sweepInterests upstream city now
    (jsDateRange startDate endDate) interests).2 with hcol
  refine ⟨?_, ?_, ?_, ?_⟩
  · intro l0 hl0
    have hmem : l0 ∈ collected.filter (fun l => decide (urlKey l = urlKey l0)) :=
      List.mem_filter.2 ⟨hl0, by simp⟩
    cases hfil : collected.filter (fun l => decide (urlKey l = urlKey l0)) with
    | nil => rw [hfil] at hmem; cases hmem
    | cons a t =>
      refine ⟨a, rfl, ?_⟩
      rw [hall, dedupByKey_filter urlKey (urlKey l0) collected [], hfil]
      simp
  · rw [hall]
    exact (dedupByKey_keys_nodup urlKey collected []).1
  · intro l hl
    rw [hall] at hl
    exact (dedupByKey_sublist urlKey collected []).subset hl
  · show (dedupByKey urlKey collected []).length = _
    exact dedupByKey_length urlKey collected

/-- C2 witness: a concrete sweep in which the url `"u1"` is returned on
both days keeps exactly its first-seen annotated link in `allLinks`, and
`totalLinksFound` counts distinct urls. -/
theorem scoutEvents_dedup_by_url_witness :
    ((scoutEvents
        (fun _ _ d => .ok (if d = "2026-01-03"
          then "\x7b\"links\":[\x7b\"url\":\"u1\",\"title\":\"A\"\x7d,\x7b\"url\":\"u2\"\x7d]\x7d"
          else "\x7b\"links\":[\x7b\"url\":\"u1\",\"title\":\"B\"\x7d]\x7d"))
        "NYC" ["jazz"] "2026-01-03" "2026-01-04" "t0").allLinks.filter
      (fun l => decide (urlKey l = some (.str "u1"))))
      = [Json.obj [("url", .str "u1"), ("title", .str "A"),
          ("interest", .str "jazz"), ("date", .str "2026-01-03"),
          ("searchedAt", .str "t0")]] ∧
    (scoutEvents
        (fun _ _ d => .ok (if d = "2026-01-03"
          then "\x7b\"links\":[\x7b\"url\":\"u1\",\"title\":\"A\"\x7d,\x7b\"url\":\"u2\"\x7d]\x7d"
          else "\x7b\"links\":[\x7b\"url\":\"u1\",\"title\":\"B\"\x7d]\x7d"))
        "NYC" ["jazz"] "2026-01-03" "2026-01-04" "t0").totalLinksFound = 2 := by
  have h := scoutEvents_dedup_by_url
    (fun _ _ d => .ok (if d = "2026-01-03"
      then "\x7b\"links\":[\x7b\"url\":\"u1\",\"title\":\"A\"\x7d,\x7b\"url\":\"u2\"\x7d]\x7d"
      else "\x7b\"links\":[\x7b\"url\":\"u1\",\"title\":\"B\"\x7d]\x7d"))
    "NYC" ["jazz"] "2026-01-03" "2026-01-04" "t0"
  obtain ⟨first, hhead, hfil⟩ := h.1
    (Json.obj [("url", .str "u1"), ("title", .str "A"),
      ("interest", .str "jazz"), ("date", .str "2026-01-03"),
      ("searchedAt", .str "t0")]) (by decide)
  have hkey : urlKey (Json.obj [("url", .str "u1"), ("title", .str "A"),
      ("interest", .str "jazz"), ("date", .str "2026-01-03"),
      ("searchedAt", .str "t0")]) = some (.str "u1") := by decide
  refine ⟨?_, ?_⟩
  · have hfirst : first = Json.obj [("url", .str "u1"), ("title", .str "A"),
        ("interest", .str "jazz"), ("date", .str "2026-01-03"),
        ("searchedAt", .str "t0")] := by
      have hconc := hhead
      rw [show ((sweepInterests
          (fun (_ _ d : String) => Except.ok (if d = "2026-01-03"
            then "\x7b\"links\":[\x7b\"url\":\"u1\",\"title\":\"A\"\x7d,\x7b\"url\":\"u2\"\x7d]\x7d"
            else "\x7b\"links\":[\x7b\"url\":\"u1\",\"title\":\"B\"\x7d]\x7d"))
          "NYC" "t0" (jsDateRange "2026-01-03" "2026-01-04") ["jazz"]).2.filter
          (fun l => decide (urlKey l = urlKey (Json.obj [("url", .str "u1"),
            ("title", .str "A"), ("interest", .str "jazz"),
            ("date", .str "2026-01-03"), ("searchedAt", .str "t0")])))).head?
          = some (Json.obj [("url", .str "u1"), ("title", .str "A"),
            ("interest", .str "jazz"), ("date", .str "2026-01-03"),
            ("searchedAt", .str "t0")]) from by decide] at hconc
      exact (Option.some.inj hconc).symm
    rw [hkey, hfirst] at hfil
    exact hfil
  · rw [h.2.2.2]
    decide

/-! ## Claim C7: a failed (interest, day) search degrades, the sweep
continues -/

/-- C7: when the upstream call for an (interest, day) pair throws, or
its response text defeats the extraction chain, `searchForInterest`
returns `success = false` with empty links instead of raising, and
`scoutEvents` still performs the full sweep — one result per
(interest, day) pair — and returns its aggregate. -/
theorem searchForInterest_failure_degrades
    (upstream : String → String → String → Except String String)
    (interest city date : String)
    (hfail : (∃ m, upstream interest city date = .error m) ∨
      (∃ t m, upstream interest city date = .ok t ∧
        extractJSONScout t = .error m)) :
    (searchForInterest upstream interest city date).success = false ∧
    (searchForInterest upstream interest city date).links = [] ∧
    (∀ (interests : List String) (startDate endDate now : String),
      (scoutEvents upstream city interests startDate endDate now).searchResults.length
        = interests.length * (jsDateRange startDate endDate).length ∧
      (scoutEvents upstream city interests startDate endDate now).searchResults.map
          (fun r => (r.interest, r.date))
        = interests.flatMap (fun i => (jsDateRange startDate endDate).map
            (fun d => (i, d)))) := by
  refine ⟨?_, ?_, fun interests startDate endDate now =>
    ⟨scout_searchResults_length upstream city interests startDate endDate now,
     scout_searchResults_pairs upstream city interests startDate endDate now⟩⟩ <;>
  · unfold searchForInterest
    rcases hfail with ⟨m, hm⟩ | ⟨t, m, ht, hm⟩
    · rw [hm]
    · rw [ht]
      dsimp only
      rw [hm]

/-- C7 witness: a concretely failing upstream call (thrown transport
error) degrades to an empty-links failure result while the two-day sweep
still yields two results. -/
theorem searchForInterest_failure_degrades_witness :
    (searchForInterest (fun _ _ _ => .error "fetch failed") "jazz" "NYC"
      "2026-01-03").success = false ∧
    (searchForInterest (fun _ _ _ => .error "fetch failed") "jazz" "NYC"
      "2026-01-03").links = [] ∧
    (scoutEvents (fun _ _ _ => .error "fetch failed") "NYC" ["jazz"]
      "2026-01-03" "2026-01-04" "t0").searchResults.length = 1 * 2 := by
  have h := searchForInterest_failure_degrades
    (fun _ _ _ => .error "fetch failed") "jazz" "NYC" "2026-01-03"
    (Or.inl ⟨"fetch failed", rfl⟩)
  refine ⟨h.1, h.2.1, ?_⟩
  have h2 := (h.2.2 ["jazz"] "2026-01-03" "2026-01-04" "t0").1
  rw [h2]
  decide

/-! ## Explorer (explorer.js)

The upstream analysis call (`ai.models.generateContent` on the prompt
built from a batch of links and the city) is modelled as a function from
those two inputs to a thrown error message or the response text.  The
template-literal dedup key `` `${event.name}-${event.start_time}` `` uses
the JS string conversion of the two property values, modelled by
`jsToString` (`undefined` for a missing property).  `new Date(s).getTime()`
on a strict local `YYYY-MM-DDTHH:MM:SSS` datetime string is strictly
monotone in the (year, month, day, hour, minute, second) tuple, so it is
modelled up to order-isomorphism by the mixed-radix value `isoVal`;
strings outside that strict format, and non-string values, denote `NaN`
(`none`), for which the comparator returns 0 as ECMA-262's `SortCompare`
does. -/

def natToStringAux : Nat → Nat → List Char → List Char
  | 0, _, acc => acc
  | fuel + 1, n, acc =>
    if n = 0 then acc
    else natToStringAux fuel (n / 10) (digitCh (n % 10) :: acc)

def natToString (n : Nat) : String :=
  if n = 0 then "0" else String.mk (natToStringAux (n + 1) n [])

def intToString (i : Int) : String :=
  if i < 0 then "-" ++ natToString i.natAbs else natToString i.toNat

mutual

/-- JS `${v}` template conversion of a value. -/
def jsToString : Json → String
  | .null => "null"
  | .undef => "undefined"
  | .bool b => if b then "true" else "false"
  | .num n => intToString n
  | .str s => s
  | .arr xs => jsToStringArr xs
  | .obj _ => "[object Object]"

/-- JS `Array.prototype.toString`: elements joined with `","`, with
`null`/`undefined` elements as empty strings. -/
def jsToStringArr : List Json → String
  | [] => ""
  | [x] => jsToStringElem x
  | x :: xs => jsToStringElem x ++ "," ++ jsToStringArr xs

/-- One array element: like `jsToString` except that `null` and
`undefined` convert to the empty string. -/
def jsToStringElem : Json → String
  | .null => ""
  | .undef => ""
  | .bool b => if b then "true" else "false"
  | .num n => intToString n
  | .str s => s
  | .arr xs => jsToStringArr xs
  | .obj _ => "[object Object]"

end

/-- JS conversion of a property read (`undefined` when absent). -/
def jsValToString : Option Json → String
  | none => "undefined"
  | some v => jsToString v

/-- The Explorer dedup key `` `${event.name}-${event.start_time}` ``. -/
def eventKey (e : Json) : String :=
  jsValToString (e.getField "name") ++ "-" ++ jsValToString (e.getField "start_time")

/-- Strict `YYYY-MM-DDTHH:MM:SS` parse with component validation
(anything else denotes an Invalid Date / `NaN`). -/
def parseISOChars (cs : List Char) : Option (Civil × Int × Int × Int) :=
  match cs with
  | [y1, y2, y3, y4, '-', m1, m2, '-', d1, d2, 'T',
     h1, h2, ':', mi1, mi2, ':', s1, s2] =>
    if [y1, y2, y3, y4, m1, m2, d1, d2, h1, h2, mi1, mi2, s1, s2].all
        JsonParse.isDigitCh then
      let y : Int := digitsToNat [y1, y2, y3, y4]
      let m : Int := digitsToNat [m1, m2]
      let d : Int := digitsToNat [d1, d2]
      let h : Int := digitsToNat [h1, h2]
      let mi : Int := digitsToNat [mi1, mi2]
      let sec : Int := digitsToNat [s1, s2]
      if 1 ≤ m ∧ m ≤ 12 ∧ 1 ≤ d ∧ d ≤ daysInMonth y m ∧ h ≤ 23 ∧ mi ≤ 59 ∧ sec ≤ 59 then
        some (⟨y, m, d⟩, h, mi, sec)
      else none
    else none
  | _ => none

def parseISO (s : String) : Option (Civil × Int × Int × Int) :=
  parseISOChars s.data

/-- The order-value of a datetime string (seconds since epoch for a
fixed-offset zone; only its ordering matters). -/
def isoVal (s : String) : Option Int :=
  (parseISO s).map (fun p =>
    daysFromCivil p.1 * 86400 + p.2.1 * 3600 + p.2.2.1 * 60 + p.2.2.2)

/-- `new Date(event.start_time).getTime()` (`none` is `NaN`). -/
def timeVal (e : Json) : Option Int :=
  match e.getField "start_time" with
  | some (.str s) => isoVal s
  | _ => none

/-- The sort comparator `timeA - timeB`, with `NaN` results coerced to
`+0` as in ECMA-262 `SortCompare`. -/
def jsCmp (a b : Json) : Int :=
  match timeVal a, timeVal b with
  | some x, some y => x - y
  | _, _ => 0

/-- The ordering used to model the stable `Array.prototype.sort` of
events (any stable sort computes the same list for this comparator). -/
def eventLe (a b : Json) : Prop := jsCmp a b ≤ 0

instance : DecidableRel eventLe := fun a b =>
  inferInstanceAs (Decidable (jsCmp a b ≤ 0))

/-- `for (i = 0; i < links.length; i += batchSize) batches.push(slice(i, i+5))`
with `batchSize = 5` (the fuel equals the iteration bound and is never
exhausted). -/
def mkBatchesAux {α : Type} : Nat → List α → List (List α)
  | 0, _ => []
  | _, [] => []
  | n + 1, l => l.take 5 :: mkBatchesAux n (l.drop 5)

def mkBatches {α : Type} (l : List α) : List (List α) :=
  mkBatchesAux l.length l

/-- The result object of `analyzeBatch` (`analyzed` is `0` in the
failure branch, where the source leaves the field absent and the loop
never reads it). -/
structure BatchRes where
  success : Bool
  events : List Json
  rejected : List Json
  analyzed : Int
  error : Option String
deriving DecidableEq, Repr

/-- `result.analyzed_links || links.length` (a non-numeric truthy value
is outside the model). -/
def analyzedCount (j : Json) (links : List Json) : Int :=
  match j.getField "analyzed_links" with
  | some (.num n) => if n = 0 then (links.length : Int) else n
  | _ => (links.length : Int)

/-- The `{ url: l.url, reason: error.message }` record built for every
link of a failed batch. -/
def mkRejectedFail (l : Json) (m : String) : Json :=
  .obj [("url", (l.getField "url").getD .undef), ("reason", .str m)]

/-- `analyzeBatch(links, city)`: one upstream call; a thrown upstream
error or extraction failure converts every link of the batch into a
rejected record carrying the failure message. -/
def analyzeBatch (upstream : List Json → String → Except String String)
    (links : List Json) (city : String) : BatchRes :=
  match upstream links city with
  | .error m => ⟨false, [], links.map (fun l => mkRejectedFail l m), 0, some m⟩
  | .ok text =>
    match extractJSONExplorer text with
    | .error m => ⟨false, [], links.map (fun l => mkRejectedFail l m), 0, some m⟩
    | .ok j =>
      ⟨true, asArray (j.getField "valid_events"),
        asArray (j.getField "rejected_links"), analyzedCount j links, none⟩

/-- The sequential batch loop: `(allEvents, allRejected, totalAnalyzed)`;
a failed batch contributes its rejected records only. -/
def exploreLoop (upstream : List Json → String → Except String String)
    (city : String) : List (List Json) → List Json × List Json × Int
  | [] => ([], [], 0)
  | b :: bs =>
    if (analyzeBatch upstream b city).success then
      ((analyzeBatch upstream b city).events ++ (exploreLoop upstream city bs).1,
       (analyzeBatch upstream b city).rejected ++ (exploreLoop upstream city bs).2.1,
       (analyzeBatch upstream b city).analyzed + (exploreLoop upstream city bs).2.2)
    else
      ((exploreLoop upstream city bs).1,
       (analyzeBatch upstream b city).rejected ++ (exploreLoop upstream city bs).2.1,
       (exploreLoop upstream city bs).2.2)

/-- The merged valid events of a run (`allEvents` before dedup). -/
def mergedEvents (upstream : List Json → String → Except String String)
    (links : List Json) (city : String) : List Json :=
  (exploreLoop upstream city (mkBatches links)).1

structure ExploreResult where
  success : Bool
  events : List Json
  totalAnalyzed : Int
  totalEvents : Nat
  rejected : List Json
deriving DecidableEq, Repr

/-- `exploreLinks(links, city)`: batch, analyze sequentially, then
deduplicate the merged events by `` `${name}-${start_time}` `` keeping
first occurrences, and sort by `new Date(start_time).getTime()`. -/
def exploreLinks (upstream : List Json → String → Except String String)
    (links : List Json) (city : String) : ExploreResult :=
  if links.isEmpty then ⟨true, [], 0, 0, []⟩
  else
    let loopRes := exploreLoop upstream city (mkBatches links)
    let uniqueEvents := dedupByKey eventKey loopRes.1 []
    let sorted := List.insertionSort eventLe uniqueEvents
    ⟨true, sorted, loopRes.2.2, sorted.length, loopRes.2.1⟩

/-- The `(name, start_time)` property pair of an event. -/
def pairOf (e : Json) : Option Json × Option Json :=
  (e.getField "name", e.getField "start_time")

/-- An event whose `name` is a string and whose `start_time` is a strict
ISO datetime string — the regime in which the concatenated dedup key is
injective in the pair and the sort comparator is a total preorder. -/
def isWellFormedEvent (e : Json) : Bool :=
  (match e.getField "name" with
   | some (.str _) => true
   | _ => false) &&
  (match e.getField "start_time" with
   | some (.str s) => (parseISO s).isSome
   | _ => false)

/-! ### Key injectivity and comparator totality on well-formed events -/

theorem parseISOChars_length (cs : List Char)
    (h : (parseISOChars cs).isSome) : cs.length = 19 := by
  unfold parseISOChars at h
  split at h
  · rfl
  · simp at h

theorem nameStr_of_wf {o : Option Json}
    (h : (match o with
      | some (.str _) => true
      | _ => false) = true) : ∃ n, o = some (.str n) := by
  cases o with
  | none => simp at h
  | some v => cases v <;> simp_all

theorem startStr_of_wf {o : Option Json}
    (h : (match o with
      | some (.str s) => (parseISO s).isSome
      | _ => false) = true) :
    ∃ s, o = some (.str s) ∧ (parseISO s).isSome := by
  cases o with
  | none => simp at h
  | some v =>
    cases v <;> simp_all

theorem string_of_data_eq {s t : String} (h : s.data = t.data) : s = t := by
  cases s; cases t; exact congrArg String.mk h

theorem append_cancel_of_length {n1 s1 n2 s2 : String}
    (hlen : s1.data.length = s2.data.length)
    (h : n1 ++ "-" ++ s1 = n2 ++ "-" ++ s2) : n1 = n2 ∧ s1 = s2 := by
  have hd : n1.data ++ ('-' :: s1.data) = n2.data ++ ('-' :: s2.data) := by
    have := congrArg String.data h
    simpa [String.data_append] using this
  have h2 := List.append_inj' hd (by simp [hlen])
  refine ⟨string_of_data_eq h2.1, ?_⟩
  have h3 := h2.2
  injection h3 with _ h4
  exact string_of_data_eq h4

theorem eventKey_eq_iff {x y : Json}
    (hx : isWellFormedEvent x = true) (hy : isWellFormedEvent y = true) :
    eventKey x = eventKey y ↔ pairOf x = pairOf y := by
  have hx' := hx
  have hy' := hy
  unfold isWellFormedEvent at hx' hy'
  rw [Bool.and_eq_true] at hx' hy'
  obtain ⟨hx1, hx2⟩ := hx'
  obtain ⟨hy1, hy2⟩ := hy' 
  obtain ⟨n1, hn1⟩ := nameStr_of_wf hx1
  obtain ⟨s1, hs1, hp1⟩ := startStr_of_wf hx2
  obtain ⟨n2, hn2⟩ := nameStr_of_wf hy1
  obtain ⟨s2, hs2, hp2⟩ := startStr_of_wf hy2
  unfold eventKey pairOf
  rw [hn1, hs1, hn2, hs2]
  constructor
  · intro h
    have hlen : s1.data.length = s2.data.length := by
      rw [parseISOChars_length s1.data hp1, parseISOChars_length s2.data hp2]
    have := append_cancel_of_length hlen (by simpa [jsValToString, jsToString] using h)
    rw [this.1, this.2]
  · intro h
    have h1 : n1 = n2 := by simpa using congrArg (fun p => p.1) h
    have h2 : s1 = s2 := by simpa using congrArg (fun p => p.2) h
    rw [h1, h2]

theorem timeVal_some_of_wf {e : Json} (h : isWellFormedEvent e = true) :
    ∃ v, timeVal e = some v := by
  have h' := h
  unfold isWellFormedEvent at h'
  rw [Bool.and_eq_true] at h'
  obtain ⟨s, hs, hp⟩ := startStr_of_wf h'.2
  rw [Option.isSome_iff_exists] at hp
  obtain ⟨p, hp⟩ := hp
  refine ⟨daysFromCivil p.1 * 86400 + p.2.1 * 3600 + p.2.2.1 * 60 + p.2.2.2, ?_⟩
  unfold timeVal
  rw [hs]
  dsimp only
  unfold isoVal
  rw [hp]
  rfl

/-! ### Stable-sort sortedness on a domain where the comparator is a
total preorder -/

theorem pairwise_orderedInsert {α : Type} (r : α → α → Prop) [DecidableRel r]
    (P : α → Prop)
    (htot : ∀ a b, P a → P b → r a b ∨ r b a)
    (htrans : ∀ a b c, P a → P b → P c → r a b → r b c → r a c) :
    ∀ (l : List α) (a : α), P a → (∀ x ∈ l, P x) → l.Pairwise r →
      (List.orderedInsert r a l).Pairwise r := by
  intro l
  induction l with
  | nil =>
    intro a _ _ _
    simp [List.orderedInsert]
  | cons b l ih =>
    intro a hPa hPl hpw
    rcases List.pairwise_cons.mp hpw with ⟨hbl, hpl⟩
    by_cases hab : r a b
    · rw [List.orderedInsert_of_le r l hab]
      refine List.pairwise_cons.mpr ⟨?_, hpw⟩
      intro y hy
      rcases List.mem_cons.mp hy with h | h
      · exact h ▸ hab
      · exact htrans a b y hPa (hPl b (List.mem_cons_self b l))
          (hPl y (List.mem_cons_of_mem b h)) hab (hbl y h)
    · have hba : r b a :=
        (htot a b hPa (hPl b (List.mem_cons_self b l))).resolve_left hab
      have heq : List.orderedInsert r a (b :: l) = b :: List.orderedInsert r a l := by
        simp [List.orderedInsert, hab]
      rw [heq]
      refine List.pairwise_cons.mpr ⟨?_, ?_⟩
      · intro y hy
        rcases (List.mem_orderedInsert r).mp hy with h | h
        · exact h ▸ hba
        · exact hbl y h
      · exact ih a hPa (fun x hx => hPl x (List.mem_cons_of_mem b hx)) hpl

theorem pairwise_insertionSort {α : Type} (r : α → α → Prop) [DecidableRel r]
    (P : α → Prop)
    (htot : ∀ a b, P a → P b → r a b ∨ r b a)
    (htrans : ∀ a b c, P a → P b → P c → r a b → r b c → r a c) :
    ∀ l : List α, (∀ x ∈ l, P x) → (List.insertionSort r l).Pairwise r := by
  intro l
  induction l with
  | nil => intro _; simp
  | cons a l ih =>
    intro hP
    rw [List.insertionSort]
    exact pairwise_orderedInsert r P htot htrans _ a
      (hP a (List.mem_cons_self a l))
      (fun x hx => hP x (List.mem_cons_of_mem a ((List.mem_insertionSort r).mp hx)))
      (ih (fun x hx => hP x (List.mem_cons_of_mem a hx)))

/-! ## Claim C1: Explorer's deduplication and sort -/

/-- C1 (amended): when every merged valid event has a string `name` and
a strict-ISO string `start_time` (under which the concatenated dedup key
determines the `(name, start_time)` pair), the events returned by
`exploreLinks` are merged events, contain for every pair occurring among
the merged events exactly its first occurrence in merge order, and are
sorted non-decreasing by the `start_time` instant. -/
theorem exploreLinks_dedup_sorted
    (upstream : List Json → String → Except String String)
    (links : List Json) (city : String)
    (hwf : ∀ e ∈ mergedEvents upstream links city, isWellFormedEvent e = true) :
    (∀ e ∈ (exploreLinks upstream links city).events,
      e ∈ mergedEvents upstream links city) ∧
    (∀ e0 ∈ mergedEvents upstream links city,
      ∃ first,
        ((mergedEvents upstream links city).filter
            (fun e => decide (pairOf e = pairOf e0))).head? = some first ∧
        (exploreLinks upstream links city).events.filter
            (fun e => decide (pairOf e = pairOf e0)) = [first]) ∧
    (exploreLinks upstream links city).events.Pairwise
      (fun a b => ∀ x y, timeVal a = some x → timeVal b = some y → x ≤ y) := by
  by_cases hemp : links.isEmpty
  · have hev : (exploreLinks upstream links city).events = [] := by
      unfold exploreLinks
      rw [if_pos hemp]
    have hmer : mergedEvents upstream links city = [] := by
      have : links = [] := List.isEmpty_iff.mp hemp
      subst this
      rfl
    rw [hev, hmer]
    exact ⟨by simp, by simp, by simp⟩
  · have hev : (exploreLinks upstream links city).events
        = List.insertionSort eventLe
            (dedupByKey eventKey (mergedEvents upstream links city) []) := by
      unfold exploreLinks
      rw [if_neg hemp]
      rfl
    set merged := mergedEvents upstream links city with hm
    set uniq := dedupByKey eventKey merged [] with hu
    have huniq_sub : ∀ e ∈ uniq, e ∈ merged :=
      fun e he => (dedupByKey_sublist eventKey merged []).subset he
    have hwf_uniq : ∀ e ∈ uniq, isWellFormedEvent e = true :=
      fun e he => hwf e (huniq_sub e he)
    refine ⟨?_, ?_, ?_⟩
    · intro e he
      rw [hev] at he
      exact huniq_sub e ((List.mem_insertionSort eventLe).mp he)
    · intro e0 he0
      have hperm : List.Perm
          ((exploreLinks upstream links city).events.filter
            (fun e => decide (pairOf e = pairOf e0)))
          (uniq.filter (fun e => decide (pairOf e = pairOf e0))) := by
        rw [hev]
        exact (List.perm_insertionSort eventLe uniq).filter _
      have hcongr_uniq : uniq.filter (fun e => decide (pairOf e = pairOf e0))
          = uniq.filter (fun e => decide (eventKey e = eventKey e0)) := by
        apply List.filter_congr
        intro x hx
        exact decide_eq_decide.mpr
          (Iff.symm (eventKey_eq_iff (hwf_uniq x hx) (hwf e0 he0)))
      have hcongr_merged :
          merged.filter (fun e => decide (eventKey e = eventKey e0))
            = merged.filter (fun e => decide (pairOf e = pairOf e0)) := by
        apply List.filter_congr
        intro x hx
        exact decide_eq_decide.mpr (eventKey_eq_iff (hwf x hx) (hwf e0 he0))
      have hded := dedupByKey_filter eventKey (eventKey e0) merged []
      rw [if_neg (by simp)] at hded
      cases hsplit : merged.filter (fun e => decide (pairOf e = pairOf e0)) with
      | nil =>
        have hmem : e0 ∈ merged.filter (fun e => decide (pairOf e = pairOf e0)) :=
          List.mem_filter.2 ⟨he0, by simp⟩
        rw [hsplit] at hmem
        cases hmem
      | cons f rest =>
        refine ⟨f, rfl, ?_⟩
        have huf : uniq.filter (fun e => decide (pairOf e = pairOf e0)) = [f] := by
          rw [hcongr_uniq, hu, hded, hcongr_merged, hsplit]
          rfl
        exact List.perm_singleton.mp (huf ▸ hperm)
    · have htot : ∀ a b : Json, isWellFormedEvent a = true →
          isWellFormedEvent b = true → eventLe a b ∨ eventLe b a := by
        intro a b ha hb
        obtain ⟨x, hx⟩ := timeVal_some_of_wf ha
        obtain ⟨y, hy⟩ := timeVal_some_of_wf hb
        unfold eventLe jsCmp
        rw [hx, hy]
        dsimp only
        omega
      have htrans : ∀ a b c : Json, isWellFormedEvent a = true →
          isWellFormedEvent b = true → isWellFormedEvent c = true →
          eventLe a b → eventLe b c → eventLe a c := by
        intro a b c ha hb hc h1 h2
        obtain ⟨x, hx⟩ := timeVal_some_of_wf ha
        obtain ⟨y, hy⟩ := timeVal_some_of_wf hb
        obtain ⟨z, hz⟩ := timeVal_some_of_wf hc
        unfold eventLe jsCmp at h1 h2 ⊢
        rw [hx, hy] at h1
        rw [hy, hz] at h2
        rw [hx, hz]
        dsimp only at h1 h2 ⊢
        omega
      have hpw := pairwise_insertionSort eventLe
        (fun e => isWellFormedEvent e = true) htot htrans uniq hwf_uniq
      rw [hev]
      refine hpw.imp ?_
      intro a b hab x y hx hy
      unfold eventLe jsCmp at hab
      rw [hx, hy] at hab
      dsimp only at hab
      omega

/-- The upstream response for the C1 counterexample run: two valid
events with distinct `(name, start_time)` pairs — `("a-b", "c")` and
`("a", "b-c")` — whose concatenated dedup keys are both `"a-b-c"`. -/
def c1CollisionUp : List Json → String → Except String String := fun _ _ =>
  .ok "\x7b\"analyzed_links\":1,\"valid_events\":[\x7b\"name\":\"a-b\",\"start_time\":\"c\"\x7d,\x7b\"name\":\"a\",\"start_time\":\"b-c\"\x7d],\"rejected_links\":[]\x7d"

def c1Link : List Json := [Json.obj [("url", Json.str "u")]]

set_option maxRecDepth 40000 in
/-- C1 counterexample: the merged valid events of this concrete run
contain an event with the pair `("a", "b-c")`, yet the returned events
array contains no event with that pair — the event was dropped because
its concatenated key `"a-b-c"` collides with the key of the distinct
pair `("a-b", "c")`.  So the returned array does not keep one event per
distinct `(name, start_time)` pair. -/
theorem exploreLinks_dash_key_collision :
    (mergedEvents c1CollisionUp c1Link "NYC").countP
        (fun e => decide (pairOf e = (some (.str "a"), some (.str "b-c")))) = 1 ∧
    (exploreLinks c1CollisionUp c1Link "NYC").events.countP
        (fun e => decide (pairOf e = (some (.str "a"), some (.str "b-c")))) = 0 := by
  decide

/-- The upstream response for the C1 witness run: three well-formed
events — two sharing the pair `("X", 19:00)` and one at `09:30`. -/
def c1WfUp : List Json → String → Except String String := fun _ _ =>
  .ok "\x7b\"analyzed_links\":1,\"valid_events\":[\x7b\"name\":\"X\",\"start_time\":\"2026-01-03T19:00:00\"\x7d,\x7b\"name\":\"Y\",\"start_time\":\"2026-01-03T09:30:00\"\x7d,\x7b\"name\":\"X\",\"start_time\":\"2026-01-03T19:00:00\",\"note\":\"dup\"\x7d],\"rejected_links\":[]\x7d"

set_option maxRecDepth 40000 in
/-- C1 witness: the amended theorem applied to a concrete well-formed
run keeps exactly the first occurrence of the duplicated pair. -/
theorem exploreLinks_dedup_sorted_witness :
    (exploreLinks c1WfUp c1Link "NYC").events.filter
        (fun e => decide (pairOf e = pairOf (Json.obj
          [("name", Json.str "X"), ("start_time", Json.str "2026-01-03T19:00:00")])))
      = [Json.obj [("name", Json.str "X"),
          ("start_time", Json.str "2026-01-03T19:00:00")]] := by
  have h := exploreLinks_dedup_sorted c1WfUp c1Link "NYC" (by decide)
  obtain ⟨first, hhead, hfil⟩ := h.2.1
    (Json.obj [("name", Json.str "X"),
      ("start_time", Json.str "2026-01-03T19:00:00")]) (by decide)
  have hfirst : first = Json.obj [("name", Json.str "X"),
      ("start_time", Json.str "2026-01-03T19:00:00")] := by
    rw [show ((mergedEvents c1WfUp c1Link "NYC").filter
        (fun e => decide (pairOf e = pairOf (Json.obj
          [("name", Json.str "X"),
           ("start_time", Json.str "2026-01-03T19:00:00")])))).head?
        = some (Json.obj [("name", Json.str "X"),
            ("start_time", Json.str "2026-01-03T19:00:00")]) from by decide] at hhead
    exact (Option.some.inj hhead).symm
  rw [hfirst] at hfil
  exact hfil

/-! ## Claim C5: batching and batch-failure handling -/

/-- Batch lengths as a function of the input length: `min 5 len`
repeatedly. -/
def chunkLens : Nat → Nat → List Nat
  | 0, _ => []
  | _, 0 => []
  | n + 1, len => min 5 len :: chunkLens n (len - 5)

theorem mkBatchesAux_flatten {α : Type} :
    ∀ (n : Nat) (l : List α), l.length ≤ n → (mkBatchesAux n l).flatten = l := by
  intro n
  induction n with
  | zero =>
    intro l hl
    have : l = [] := List.eq_nil_of_length_eq_zero (Nat.le_zero.mp hl)
    subst this
    rfl
  | succ n ih =>
    intro l hl
    cases l with
    | nil => rfl
    | cons x xs =>
      have hstep : mkBatchesAux (n + 1) (x :: xs)
          = (x :: xs).take 5 :: mkBatchesAux n ((x :: xs).drop 5) := rfl
      have hlen : ((x :: xs).drop 5).length ≤ n := by
        rw [List.length_drop, List.length_cons]
        rw [List.length_cons] at hl
        omega
      rw [hstep, List.flatten_cons, ih ((x :: xs).drop 5) hlen]
      exact List.take_append_drop 5 (x :: xs)

theorem mkBatchesAux_lens {α : Type} :
    ∀ (n : Nat) (l : List α), l.length ≤ n →
      (mkBatchesAux n l).map List.length = chunkLens n l.length := by
  intro n
  induction n with
  | zero =>
    intro l hl
    cases l <;> rfl
  | succ n ih =>
    intro l hl
    cases l with
    | nil => rfl
    | cons x xs =>
      have hstep : mkBatchesAux (n + 1) (x :: xs)
          = (x :: xs).take 5 :: mkBatchesAux n ((x :: xs).drop 5) := rfl
      have hlen : ((x :: xs).drop 5).length ≤ n := by
        rw [List.length_drop, List.length_cons]
        rw [List.length_cons] at hl
        omega
      have hchunk : chunkLens (n + 1) (x :: xs).length
          = min 5 (x :: xs).length :: chunkLens n ((x :: xs).length - 5) := by
        rw [List.length_cons]
        rfl
      rw [hstep, List.map_cons, ih ((x :: xs).drop 5) hlen, hchunk]
      congr 1
      · exact List.length_take 5 (x :: xs)
      · congr 1
        exact List.length_drop 5 (x :: xs)

theorem exploreLoop_rejected
    (upstream : List Json → String → Except String String) (city : String) :
    ∀ bs : List (List Json),
      (exploreLoop upstream city bs).2.1
        = bs.flatMap (fun b => (analyzeBatch upstream b city).rejected) := by
  intro bs
  induction bs with
  | nil => rfl
  | cons b bs ih =>
    rw [List.flatMap_cons, ← ih]
    by_cases h : (analyzeBatch upstream b city).success
    · rw [exploreLoop, if_pos h]
    · rw [exploreLoop, if_neg h]

theorem exploreLoop_events
    (upstream : List Json → String → Except String String) (city : String) :
    ∀ bs : List (List Json),
      (exploreLoop upstream city bs).1
        = bs.flatMap (fun b =>
            if (analyzeBatch upstream b city).success
            then (analyzeBatch upstream b city).events else []) := by
  intro bs
  induction bs with
  | nil => rfl
  | cons b bs ih =>
    rw [List.flatMap_cons, ← ih]
    by_cases h : (analyzeBatch upstream b city).success
    · rw [exploreLoop, if_pos h, if_pos h]
    · rw [exploreLoop, if_neg h, if_neg h]
      rfl

theorem analyzeBatch_failure
    (upstream : List Json → String → Except String String)
    (b : List Json) (city : String) (m : String)
    (hfail : (analyzeBatch upstream b city).success = false)
    (herr : (analyzeBatch upstream b city).error = some m) :
    (analyzeBatch upstream b city).rejected
      = b.map (fun l => mkRejectedFail l m) := by
  unfold analyzeBatch at hfail herr ⊢
  set r := upstream b city with hup
  clear_value r
  cases r with
  | error m' =>
    dsimp only at herr ⊢
    rw [Option.some.inj herr]
  | ok text =>
    dsimp only at hfail herr ⊢
    set rex := extractJSONExplorer text with hex
    clear_value rex
    cases rex with
    | error m' =>
      dsimp only at herr ⊢
      rw [Option.some.inj herr]
    | ok j =>
      dsimp only at hfail
      exact absurd hfail (by simp)

/-- C5: `exploreLinks` partitions its input into consecutive batches of
size 5 (a 12-element input gives lengths 5, 5, 2), its rejected list is
the in-order concatenation of the per-batch rejections — so a batch's
failure leaves the other batches' contributions unchanged — a failed
batch contributes exactly one `{url, reason}` record per link carrying
the failure message, so no input link is silently lost, and the returned
events are the dedup-and-sort of the per-batch successes. -/
theorem exploreLinks_batches
    (upstream : List Json → String → Except String String)
    (links : List Json) (city : String) :
    (mkBatches links).flatten = links ∧
    (links.length = 12 → (mkBatches links).map List.length = [5, 5, 2]) ∧
    (exploreLinks upstream links city).rejected
      = (mkBatches links).flatMap
          (fun b => (analyzeBatch upstream b city).rejected) ∧
    (∀ b ∈ mkBatches links, ∀ m : String,
      (analyzeBatch upstream b city).success = false →
      (analyzeBatch upstream b city).error = some m →
      (analyzeBatch upstream b city).rejected
          = b.map (fun l => mkRejectedFail l m) ∧
      ∀ l ∈ b, mkRejectedFail l m ∈ (exploreLinks upstream links city).rejected) ∧
    (exploreLinks upstream links city).events
      = List.insertionSort eventLe (dedupByKey eventKey
          ((mkBatches links).flatMap (fun b =>
            if (analyzeBatch upstream b city).success
            then (analyzeBatch upstream b city).events else [])) []) := by
  have hrej : (exploreLinks upstream links city).rejected
      = (mkBatches links).flatMap
          (fun b => (analyzeBatch upstream b city).rejected) := by
    by_cases hemp : links.isEmpty
    · have : links = [] := List.isEmpty_iff.mp hemp
      subst this
      rfl
    · unfold exploreLinks
      rw [if_neg hemp]
      exact exploreLoop_rejected upstream city (mkBatches links)
  refine ⟨mkBatchesAux_flatten links.length links le_rfl, ?_, hrej, ?_, ?_⟩
  · intro h12
    unfold mkBatches
    rw [mkBatchesAux_lens links.length links le_rfl, h12]
    rfl
  · intro b hb m hfail herr
    have hbrej := analyzeBatch_failure upstream b city m hfail herr
    refine ⟨hbrej, fun l hl => ?_⟩
    rw [hrej]
    exact List.mem_flatMap.mpr ⟨b, hb, hbrej ▸ List.mem_map_of_mem _ hl⟩
  · by_cases hemp : links.isEmpty
    · have : links = [] := List.isEmpty_iff.mp hemp
      subst this
      rfl
    · unfold exploreLinks
      rw [if_neg hemp]
      show List.insertionSort eventLe
          (dedupByKey eventKey (exploreLoop upstream city (mkBatches links)).1 []) = _
      rw [exploreLoop_events]

def c5Links : List Json :=
  ["u1", "u2", "u3", "u4", "u5", "u6", "u7", "u8", "u9", "u10", "u11",
   "u12"].map (fun u => Json.obj [("url", Json.str u)])

/-- Upstream for the C5 witness: the batch starting at link `u6`
(batch 2 of 5,5,2) throws; the other batches answer with an empty valid
result. -/
def c5Up : List Json → String → Except String String := fun b _ =>
  if (b.headD Json.null).getField "url" = some (.str "u6") then .error "boom"
  else .ok "\x7b\"analyzed_links\":5,\"valid_events\":[],\"rejected_links\":[]\x7d"

set_option maxRecDepth 40000 in
/-- C5 witness: 12 links are split 5/5/2; the failing batch 2 turns into
exactly its five `{url, reason}` records, and batches 1 and 3 contribute
no rejections. -/
theorem exploreLinks_batches_witness :
    (mkBatches c5Links).map List.length = [5, 5, 2] ∧
    mkRejectedFail (Json.obj [("url", Json.str "u6")]) "boom"
      ∈ (exploreLinks c5Up c5Links "NYC").rejected ∧
    (exploreLinks c5Up c5Links "NYC").rejected
      = ["u6", "u7", "u8", "u9", "u10"].map
          (fun u => Json.obj [("url", Json.str u), ("reason", Json.str "boom")]) := by
  have h := exploreLinks_batches c5Up c5Links "NYC"
  refine ⟨h.2.1 (by decide), ?_, by decide⟩
  exact (h.2.2.2.1
      (["u6", "u7", "u8", "u9", "u10"].map (fun u => Json.obj [("url", Json.str u)]))
      (by decide) "boom" (by decide) (by decide)).2
    (Json.obj [("url", Json.str "u6")]) (by decide)

/-! ## Claim C9: stripping of the transient provenance fields -/

/-- The rest-destructuring
`const { interest_matched, target_date, ...cleanEvent } = event` of
`Logger.logFinalItinerary` in api_server.js: drop the named own
properties, keep the rest in order (a non-object passes through with no
properties to read). -/
def removeField (j : Json) (k : String) : Json :=
  match j with
  | .obj fs => .obj (fs.filter (fun f => ¬ f.1 = k))
  | other => other

/-- The `cleanedEvents` map of `Logger.logFinalItinerary`. -/
def cleanEvents (events : List Json) : List Json :=
  events.map (fun e => removeField (removeField e "interest_matched") "target_date")

/-- Upstream for the C9 counterexample: one valid event carrying the
transient provenance fields. -/
def c9Up : List Json → String → Except String String := fun _ _ =>
  .ok "\x7b\"analyzed_links\":1,\"valid_events\":[\x7b\"name\":\"X\",\"start_time\":\"2026-01-03T18:00:00\",\"interest_matched\":\"Technology\",\"target_date\":\"2026-01-03\"\x7d],\"rejected_links\":[]\x7d"

set_option maxRecDepth 40000 in
/-- C9 counterexample: in this concrete run the event in the array
returned by `exploreLinks` still carries `interest_matched` (and
`target_date`) — `exploreLinks` performs no stripping before returning. -/
theorem exploreLinks_retains_provenance_fields :
    (exploreLinks c9Up c1Link "NYC").events.map
        (fun e => e.getField "interest_matched")
      = [some (.str "Technology")] ∧
    (exploreLinks c9Up c1Link "NYC").events.map
        (fun e => e.getField "target_date")
      = [some (.str "2026-01-03")] := by
  decide

theorem removeField_getField_none (j : Json) (k : String) :
    (removeField j k).getField k = none := by
  cases j with
  | obj fs =>
    unfold removeField Json.getField
    dsimp only
    apply Option.map_eq_none'.mpr
    rw [List.find?_eq_none]
    intro f hf
    have := (List.mem_filter.mp hf).2
    simp at this ⊢
    exact this
  | null => rfl
  | undef => rfl
  | bool b => rfl
  | num n => rfl
  | str s => rfl
  | arr xs => rfl

theorem removeField_getField_other (j : Json) (k k' : String) (hne : k' ≠ k) :
    (removeField j k).getField k' = j.getField k' := by
  cases j with
  | obj fs =>
    unfold removeField Json.getField
    dsimp only
    congr 1
    induction fs with
    | nil => rfl
    | cons f fs ih =>
      by_cases hf : f.1 = k
      · rw [List.filter_cons_of_neg (by simp [hf])]
        rw [List.find?_cons_of_neg _ (by simp [hf]; exact fun h => hne h.symm)]
        exact ih
      · rw [List.filter_cons_of_pos (by simp [hf])]
        by_cases hf' : f.1 = k'
        · rw [List.find?_cons_of_pos _ (by simp [hf']),
            List.find?_cons_of_pos _ (by simp [hf'])]
        · rw [List.find?_cons_of_neg _ (by simp [hf']),
            List.find?_cons_of_neg _ (by simp [hf'])]
          exact ih
  | null => rfl
  | undef => rfl
  | bool b => rfl
  | num n => rfl
  | str s => rfl
  | arr xs => rfl

/-- C9 (amended): the transient provenance fields are not stripped from
the events returned by `exploreLinks` — every returned event is a merged
event object unchanged — the stripping happens only in
`Logger.logFinalItinerary`, whose `cleanedEvents` have both fields
absent (and all other properties intact). -/
theorem cleanEvents_strips_provenance
    (upstream : List Json → String → Except String String)
    (links : List Json) (city : String) :
    (∀ e ∈ (exploreLinks upstream links city).events,
      e ∈ mergedEvents upstream links city) ∧
    (∀ events : List Json, ∀ e ∈ cleanEvents events,
      e.getField "interest_matched" = none ∧ e.getField "target_date" = none) ∧
    (∀ events : List Json, ∀ e ∈ events, ∀ k : String,
      k ≠ "interest_matched" → k ≠ "target_date" →
      (removeField (removeField e "interest_matched") "target_date").getField k
        = e.getField k) := by
  refine ⟨?_, ?_, ?_⟩
  · intro e he
    by_cases hemp : links.isEmpty
    · unfold exploreLinks at he
      rw [if_pos hemp] at he
      cases he
    · unfold exploreLinks at he
      rw [if_neg hemp] at he
      have he' : e ∈ dedupByKey eventKey (mergedEvents upstream links city) [] :=
        (List.mem_insertionSort eventLe).mp he
      exact (dedupByKey_sublist eventKey _ []).subset he'
  · intro events e he
    obtain ⟨e0, _, rfl⟩ := List.mem_map.mp he
    constructor
    · rw [removeField_getField_other _ _ _ (by decide)]
      exact removeField_getField_none e0 "interest_matched"
    · exact removeField_getField_none _ "target_date"
  · intro events e _ k hk1 hk2
    rw [removeField_getField_other _ _ _ hk2,
      removeField_getField_other _ _ _ hk1]

set_option maxRecDepth 40000 in
/-- C9 witness: the cleaned form of the concrete run's event has both
provenance fields absent while its other properties survive. -/
theorem cleanEvents_strips_provenance_witness :
    (Json.obj [("name", .str "X"), ("start_time", .str "2026-01-03T18:00:00"),
        ("interest_matched", .str "Technology"),
        ("target_date", .str "2026-01-03")]).getField "interest_matched"
      = some (.str "Technology") ∧
    ((cleanEvents [Json.obj [("name", .str "X"),
        ("start_time", .str "2026-01-03T18:00:00"),
        ("interest_matched", .str "Technology"),
        ("target_date", .str "2026-01-03")]]).map
      (fun e => (e.getField "interest_matched", e.getField "target_date",
        e.getField "name")))
      = [(none, none, some (.str "X"))] := by
  have h := cleanEvents_strips_provenance c9Up c1Link "NYC"
  have h2 := h.2.1 [Json.obj [("name", .str "X"),
      ("start_time", .str "2026-01-03T18:00:00"),
      ("interest_matched", .str "Technology"),
      ("target_date", .str "2026-01-03")]]
    (cleanEvents [Json.obj [("name", .str "X"),
      ("start_time", .str "2026-01-03T18:00:00"),
      ("interest_matched", .str "Technology"),
      ("target_date", .str "2026-01-03")]]).headI
    (by decide)
  refine ⟨by decide, ?_⟩
  have h3 := h.2.2 [Json.obj [("name", .str "X"),
      ("start_time", .str "2026-01-03T18:00:00"),
      ("interest_matched", .str "Technology"),
      ("target_date", .str "2026-01-03")]]
    (Json.obj [("name", .str "X"),
      ("start_time", .str "2026-01-03T18:00:00"),
      ("interest_matched", .str "Technology"),
      ("target_date", .str "2026-01-03")]) (by decide) "name"
    (by decide) (by decide)
  simp only [cleanEvents, List.map_map, List.map_cons, List.map_nil,
    Function.comp_apply]
  rw [h3]
  have h4 := h2.1
  have h5 := h2.2
  simp only [cleanEvents, List.map_cons, List.map_nil, List.headI] at h4 h5
  rw [h4, h5]
  rfl

/-! ## Resilient tool invoker (api_server.js `safeToolInvoke`)

`tool.invoke(params, options)` is modelled by `call attempt` — the
outcome of the `attempt`-th invocation (the rebinding of the tool handle
after a reconnect is part of what makes the second attempt a different
call, which the index captures); `initializeMCP()` is modelled by
`reconnect`.  The `catch (reconnectError)` block rethrows both errors
thrown while reconnecting and the retry's own failure, so observable
behaviour is the error itself in either case. -/

/-- The transport-failure signature test on `error.message`. -/
def isTransportError (m : String) : Bool :=
  jsIncludes m "No active transport" || jsIncludes m "Connection closed" ||
    jsIncludes m "HTTP 400"

/-- `safeToolInvoke(tool, params, options, logger, attempt = 1)`.  The
recursion on the growing `attempt` counter is expressed with the
structurally decreasing bound `2 - attempt`; the fuel-exhausted branch
replays the stop condition and is unreachable from any entry point,
because the recursive call happens only under `¬ attempt > 1`. -/
def safeToolInvoke {α : Type} (call : Nat → Except String α)
    (reconnect : Except String Unit) (attempt : Nat) : Except String α :=
  go (2 - attempt) attempt
where
  go : Nat → Nat → Except String α
    | guard, att =>
      match call att with
      | .ok v => .ok v
      | .error m =>
        if att > 1 then .error m
        else if isTransportError m then
          match reconnect with
          | .error rm => .error rm
          | .ok _ =>
            match guard with
            | 0 => .error m
            | g + 1 => go g (att + 1)
        else .error m

/-! ## Claim C4: at most two invocation attempts -/

/-- C4: starting from the default `attempt = 1`, `safeToolInvoke` is
fully characterized by the outcomes of the first and second invocation
attempts: a first success is returned; a non-transport first failure
propagates; a transport first failure triggers the reconnect, whose
error propagates; after a successful reconnect the single retry's
result — success or second failure, transport or not — is final.  In
particular the result never depends on any attempt beyond the second. -/
theorem safeToolInvoke_two_attempts {α : Type}
    (call : Nat → Except String α) (reconnect : Except String Unit) :
    (safeToolInvoke call reconnect 1
      = (match call 1 with
         | .ok v => .ok v
         | .error m =>
           if isTransportError m then
             match reconnect with
             | .error rm => .error rm
             | .ok _ =>
               match call 2 with
               | .ok v => .ok v
               | .error m2 => .error m2
           else .error m)) ∧
    (∀ call' : Nat → Except String α, call' 1 = call 1 → call' 2 = call 2 →
      safeToolInvoke call' reconnect 1 = safeToolInvoke call reconnect 1) := by
  have hmain : ∀ c : Nat → Except String α,
      safeToolInvoke c reconnect 1
        = (match c 1 with
           | .ok v => .ok v
           | .error m =>
             if isTransportError m then
               match reconnect with
               | .error rm => .error rm
               | .ok _ =>
                 match c 2 with
                 | .ok v => .ok v
                 | .error m2 => .error m2
             else .error m) := by
    intro c
    show safeToolInvoke.go c reconnect 1 1 = _
    rw [safeToolInvoke.go]
    cases hc1 : c 1 with
    | ok v => rfl
    | error m =>
      dsimp only
      rw [if_neg (by decide : ¬ (1 > 1))]
      by_cases ht : isTransportError m
      · rw [if_pos ht, if_pos ht]
        cases reconnect with
        | error rm => rfl
        | ok u =>
          dsimp only
          rw [safeToolInvoke.go]
          cases hc2 : c 2 with
          | ok v => rfl
          | error m2 =>
            dsimp only
            rw [if_pos (by decide : 2 > 1)]
      · rw [if_neg ht, if_neg ht]
  exact ⟨hmain call, fun call' h1 h2 => by rw [hmain call', hmain call, h1, h2]⟩

/-- C4 witness: a transport failure then a success yields the success
after one reconnect, and the result is unchanged under any call function
agreeing on the first two attempts. -/
theorem safeToolInvoke_two_attempts_witness :
    safeToolInvoke
        (fun n => if n = 1 then Except.error "Connection closed"
          else Except.ok (42 : Nat)) (Except.ok ()) 1 = Except.ok 42 ∧
    safeToolInvoke
        (fun n => if n ≤ 2 then
          (if n = 1 then Except.error "Connection closed" else Except.ok 42)
          else Except.error "third attempt") (Except.ok ()) 1
      = safeToolInvoke
          (fun n => if n = 1 then Except.error "Connection closed"
            else Except.ok (42 : Nat)) (Except.ok ()) 1 := by
  have h := safeToolInvoke_two_attempts
    (fun n => if n = 1 then Except.error "Connection closed"
      else Except.ok (42 : Nat)) (Except.ok ())
  refine ⟨?_, h.2 _ (by decide) (by decide)⟩
  rw [h.1]
  decide

/-! ## Coverage analyzer (api_server.js `analyzeEventCoverage`)

The function can throw: a bucketed event whose `start_time` string has
no `"T"` makes `split("T")[1].split(":")` read a property of
`undefined`, and a truthy non-string `start_time` has no `.split`; the
`Except` models these TypeErrors.  `some`'s left-to-right
short-circuiting is preserved, so a crash occurs exactly when the
source's does.  Objects are association lists over own properties (the
initialized day keys), as everywhere in this development. -/

structure CoverageEntry where
  count : Nat
  events : List Json
  hasMorning : Bool
  hasAfternoon : Bool
  hasEvening : Bool
deriving DecidableEq, Repr

/-- JS `parseInt(str)`: optional sign after whitespace, then a digit
prefix; `none` is `NaN`. -/
def jsParseInt (s : String) : Option Int :=
  match s.data.dropWhile Char.isWhitespace with
  | '-' :: rest => (digitsPrefix rest).map (fun n => -(n : Int))
  | '+' :: rest => (digitsPrefix rest).map (fun n => (n : Int))
  | rest => (digitsPrefix rest).map (fun n => (n : Int))
where
  digitsPrefix (cs : List Char) : Option Nat :=
    match cs.takeWhile JsonParse.isDigitCh with
    | [] => none
    | ds => some (digitsToNat ds)

/-- `parseInt(e.start_time.split("T")[1].split(":")[0])`, with the
TypeError on a `start_time` that is not a string containing `"T"`. -/
def hourOf (e : Json) : Except String (Option Int) :=
  match (e.getField "start_time").getD .undef with
  | .str s =>
    match (jsSplit s "T").get? 1 with
    | none => .error "TypeError: Cannot read properties of undefined"
    | some part => .ok (jsParseInt ((jsSplit part ":").headD ""))
  | _ => .error "TypeError: split is not a function"

def hourIs (lo hi : Int) (e : Json) : Except String Bool :=
  (hourOf e).map (fun h? =>
    match h? with
    | some h => decide (lo ≤ h) && decide (h < hi)
    | none => false)

def hourGe (lo : Int) (e : Json) : Except String Bool :=
  (hourOf e).map (fun h? =>
    match h? with
    | some h => decide (lo ≤ h)
    | none => false)

/-- `Array.prototype.some` with a predicate that can throw, evaluated
left to right with short-circuiting. -/
def jsSome (p : Json → Except String Bool) : List Json → Except String Bool
  | [] => .ok false
  | x :: xs =>
    match p x with
    | .error m => .error m
    | .ok true => .ok true
    | .ok false => jsSome p xs

/-- `if (grouped[eventDate]) grouped[eventDate].push(event)`: append at
an initialized key, do nothing otherwise (the stored arrays are always
truthy). -/
def pushAt (g : List (String × List Json)) (k : String) (e : Json) :
    List (String × List Json) :=
  g.map (fun p => if p.1 = k then (p.1, p.2 ++ [e]) else p)

/-- One iteration of the grouping loop: skip a falsy `start_time`,
bucket by the pre-`"T"` day part of a string one, crash on a truthy
non-string one. -/
def groupStep (g : List (String × List Json)) (e : Json) :
    Except String (List (String × List Json)) :=
  let st := (e.getField "start_time").getD .undef
  if st.truthy then
    match st with
    | .str s => .ok (pushAt g ((jsSplit s "T").headD "") e)
    | _ => .error "TypeError: split is not a function"
  else .ok g

/-- The per-day coverage computation of the final loop. -/
def coverageEntry (p : String × List Json) :
    Except String (String × CoverageEntry) :=
  match jsSome (hourIs 8 12) p.2 with
  | .error m => .error m
  | .ok m =>
    match jsSome (hourIs 12 17) p.2 with
    | .error m' => .error m'
    | .ok a =>
      match jsSome (hourGe 17) p.2 with
      | .error m' => .error m'
      | .ok ev => .ok (p.1, CoverageEntry.mk p.2.length p.2 m a ev)

/-- `analyzeEventCoverage(events, startDate, endDate)`: initialize one
empty bucket per day of the range, group the events, then compute count
and the morning/afternoon/evening flags per day. -/
def analyzeEventCoverage (events : List Json) (startDate endDate : String) :
    Except String (List (String × CoverageEntry)) :=
  match events.foldlM groupStep
      ((jsDateRange startDate endDate).map (fun d => (d, ([] : List Json)))) with
  | .error m => .error m
  | .ok grouped => grouped.mapM coverageEntry

/-! ## Claim C8: time-of-day flags for a 09:30 / 14:00 / 19:00 day -/

def c8Events : List Json :=
  [Json.obj [("name", Json.str "A"), ("start_time", Json.str "2026-01-03T09:30:00")],
   Json.obj [("name", Json.str "B"), ("start_time", Json.str "2026-01-03T14:00:00")],
   Json.obj [("name", Json.str "C"), ("start_time", Json.str "2026-01-03T19:00:00")]]

set_option maxRecDepth 40000 in
/-- C8 counterexample: with events at 09:30, 14:00 and 19:00 on the one
in-range day, the day's entry has `hasMorning = true` — hour 9 falls in
the morning band `8 ≤ h < 12` — not `false` as the claim states. -/
theorem analyzeEventCoverage_morning_true :
    (analyzeEventCoverage c8Events "2026-01-03" "2026-01-03").toOption.map
        (fun cov => cov.map (fun p => (p.1, p.2.hasMorning)))
      = some [("2026-01-03", true)] := by
  decide

set_option maxRecDepth 40000 in
/-- C8 (amended): the 09:30 / 14:00 / 19:00 day yields
`hasMorning = true`, `hasAfternoon = true`, `hasEvening = true` and
`count = 3`, the flags being derived from the local start hours via the
bands morning 8–12, afternoon 12–17, evening ≥ 17. -/
theorem analyzeEventCoverage_c8_bands :
    analyzeEventCoverage c8Events "2026-01-03" "2026-01-03"
      = .ok [("2026-01-03", CoverageEntry.mk 3 c8Events true true true)] := by
  decide

/-! ## Claim C10: bucketing is exact day-string matching -/

theorem groupStep_ok (g g2 : List (String × List Json)) (e : Json)
    (h : groupStep g e = .ok g2) :
    g2.map Prod.fst = g.map Prod.fst ∧
    ∀ p2 ∈ g2, ∀ ev ∈ p2.2,
      (∃ p ∈ g, p.1 = p2.1 ∧ ev ∈ p.2) ∨
      (ev = e ∧ ∃ s0 : String, ev.getField "start_time" = some (.str s0) ∧
        s0 ≠ "" ∧ (jsSplit s0 "T").headD "" = p2.1) := by
  unfold groupStep at h
  by_cases htr : ((e.getField "start_time").getD .undef).truthy
  · rw [if_pos htr] at h
    cases hst : (e.getField "start_time").getD .undef with
    | str s =>
      rw [hst] at h
      dsimp only at h
      have hg2 : g2 = pushAt g ((jsSplit s "T").headD "") e :=
        (Except.ok.inj h).symm
      subst hg2
      constructor
      · unfold pushAt
        rw [List.map_map]
        apply List.map_congr_left
        intro p _
        show (if p.1 = (jsSplit s "T").headD "" then (p.1, p.2 ++ [e]) else p).1 = p.1
        by_cases hp : p.1 = (jsSplit s "T").headD ""
        · rw [if_pos hp]
        · rw [if_neg hp]
      · intro p2 hp2 ev hev
        unfold pushAt at hp2
        obtain ⟨p, hp, hpe⟩ := List.mem_map.mp hp2
        by_cases hpk : p.1 = (jsSplit s "T").headD ""
        · rw [if_pos hpk] at hpe
          subst hpe
          rcases List.mem_append.mp hev with hold | hnew
          · exact Or.inl ⟨p, hp, rfl, hold⟩
          · have hev_e : ev = e := by simpa using hnew
            subst hev_e
            refine Or.inr ⟨rfl, s, ?_, ?_, hpk.symm⟩
            · cases hf : ev.getField "start_time" with
              | none => rw [hf] at hst; cases hst
              | some v => rw [hf] at hst; simp at hst; rw [hst]
            · intro hs0
              rw [hst, hs0] at htr
              simp [Json.truthy] at htr
        · rw [if_neg hpk] at hpe
          subst hpe
          exact Or.inl ⟨p, hp, rfl, hev⟩
    | null => rw [hst] at htr; simp [Json.truthy] at htr
    | undef => rw [hst] at htr; simp [Json.truthy] at htr
    | bool b => rw [hst] at h; dsimp only at h; cases h
    | num n => rw [hst] at h; dsimp only at h; cases h
    | arr xs => rw [hst] at h; dsimp only at h; cases h
    | obj fs => rw [hst] at h; dsimp only at h; cases h
  · rw [if_neg htr] at h
    have hg2 : g2 = g := (Except.ok.inj h).symm
    subst hg2
    exact ⟨rfl, fun p2 hp2 ev hev => Or.inl ⟨p2, hp2, rfl, hev⟩⟩

theorem foldlM_groupStep (events : List Json) :
    ∀ (l : List Json) (g g' : List (String × List Json)),
      (∀ x ∈ l, x ∈ events) →
      l.foldlM groupStep g = .ok g' →
      (g'.map Prod.fst = g.map Prod.fst) ∧
      (∀ p' ∈ g', ∀ ev ∈ p'.2,
        (∃ p ∈ g, p.1 = p'.1 ∧ ev ∈ p.2) ∨
        (ev ∈ events ∧ ∃ s0 : String,
          ev.getField "start_time" = some (.str s0) ∧ s0 ≠ "" ∧
          (jsSplit s0 "T").headD "" = p'.1)) := by
  intro l
  induction l with
  | nil =>
    intro g g' _ h
    have hg : g = g' := Except.ok.inj h
    subst hg
    exact ⟨rfl, fun p' hp' ev hev => Or.inl ⟨p', hp', rfl, hev⟩⟩
  | cons x xs ih =>
    intro g g' hx h
    rw [List.foldlM_cons] at h
    cases hgs : groupStep g x with
    | error m =>
      rw [hgs] at h
      exact Except.noConfusion h
    | ok g1 =>
      rw [hgs] at h
      have h' : xs.foldlM groupStep g1 = .ok g' := h
      obtain ⟨hkeys, hprop⟩ := groupStep_ok g g1 x hgs
      obtain ⟨hkeys2, hprop2⟩ :=
        ih g1 g' (fun y hy => hx y (List.mem_cons_of_mem x hy)) h'
      refine ⟨hkeys2.trans hkeys, ?_⟩
      intro p' hp' ev hev
      rcases hprop2 p' hp' ev hev with ⟨p1, hp1, hfst, hev1⟩ | hnew
      · rcases hprop p1 hp1 ev hev1 with ⟨p0, hp0, hfst0, hev0⟩ |
          ⟨hev_x, s0, hs1, hs2, hs3⟩
        · exact Or.inl ⟨p0, hp0, hfst0.trans hfst, hev0⟩
        · exact Or.inr ⟨hev_x ▸ hx x (List.mem_cons_self x xs), s0, hs1, hs2,
            hs3.trans hfst⟩
      · exact Or.inr hnew

theorem coverageEntry_ok (p : String × List Json) (q : String × CoverageEntry)
    (h : coverageEntry p = .ok q) :
    q.1 = p.1 ∧ q.2.events = p.2 ∧ q.2.count = p.2.length ∧
    jsSome (hourIs 8 12) p.2 = .ok q.2.hasMorning ∧
    jsSome (hourIs 12 17) p.2 = .ok q.2.hasAfternoon ∧
    jsSome (hourGe 17) p.2 = .ok q.2.hasEvening := by
  unfold coverageEntry at h
  cases h1 : jsSome (hourIs 8 12) p.2 with
  | error m => rw [h1] at h; exact Except.noConfusion h
  | ok m =>
    rw [h1] at h
    dsimp only at h
    cases h2 : jsSome (hourIs 12 17) p.2 with
    | error m' => rw [h2] at h; exact Except.noConfusion h
    | ok a =>
      rw [h2] at h
      dsimp only at h
      cases h3 : jsSome (hourGe 17) p.2 with
      | error m' => rw [h3] at h; exact Except.noConfusion h
      | ok ev =>
        rw [h3] at h
        dsimp only at h
        have hq : (p.1, CoverageEntry.mk p.2.length p.2 m a ev) = q :=
          Except.ok.inj h
        subst hq
        exact ⟨rfl, rfl, rfl, rfl, rfl, rfl⟩

theorem mapM_coverageEntry :
    ∀ (g : List (String × List Json)) (cov : List (String × CoverageEntry)),
      g.mapM coverageEntry = .ok cov →
      cov.map Prod.fst = g.map Prod.fst ∧
      ∀ q ∈ cov, ∃ lst, (q.1, lst) ∈ g ∧
        q.2.events = lst ∧ q.2.count = lst.length ∧
        jsSome (hourIs 8 12) lst = .ok q.2.hasMorning ∧
        jsSome (hourIs 12 17) lst = .ok q.2.hasAfternoon ∧
        jsSome (hourGe 17) lst = .ok q.2.hasEvening := by
  intro g
  induction g with
  | nil =>
    intro cov h
    have : ([] : List (String × CoverageEntry)) = cov := Except.ok.inj h
    subst this
    exact ⟨rfl, fun q hq => absurd hq (List.not_mem_nil q)⟩
  | cons p g ih =>
    intro cov h
    rw [List.mapM_cons] at h
    cases hce : coverageEntry p with
    | error m =>
      rw [hce] at h
      exact Except.noConfusion h
    | ok q =>
      rw [hce] at h
      have h' : (g.mapM coverageEntry) >>= (fun ys => pure (q :: ys)) = .ok cov := h
      cases hrest : g.mapM coverageEntry with
      | error m =>
        rw [hrest] at h'
        exact Except.noConfusion h'
      | ok ys =>
        rw [hrest] at h'
        have hcov : q :: ys = cov := Except.ok.inj h'
        subst hcov
        obtain ⟨hq1, hq2, hq3, hq4, hq5, hq6⟩ := coverageEntry_ok p q hce
        obtain ⟨hkeys, hprop⟩ := ih ys hrest
        constructor
        · rw [List.map_cons, List.map_cons, hkeys, hq1]
        · intro q' hq'
          rcases List.mem_cons.mp hq' with hq' | hq'
          · subst hq'
            refine ⟨p.2, ?_, hq2, hq3, hq4, hq5, hq6⟩
            rw [hq1]
            exact List.mem_cons_self p g
          · obtain ⟨lst, hmem, hrest'⟩ := hprop q' hq'
            exact ⟨lst, List.mem_cons_of_mem p hmem, hrest'⟩

/-- C10: whenever `analyzeEventCoverage` returns a coverage list, its
keys are exactly the days of `[startDate, endDate]` in order — every day
receives an entry, possibly empty — and an event appears in a day's
entry only if its `start_time` is a truthy string whose pre-`"T"` part
equals that initialized day; each entry's count is the length of its
bucketed events and its three flags are computed from those bucketed
events alone, so an event with a missing start time or an
out-of-range day contributes to no entry, count or flag. -/
theorem analyzeEventCoverage_exact_bucketing
    (events : List Json) (startDate endDate : String)
    (cov : List (String × CoverageEntry))
    (h : analyzeEventCoverage events startDate endDate = .ok cov) :
    cov.map Prod.fst = jsDateRange startDate endDate ∧
    ∀ d entry, (d, entry) ∈ cov →
      d ∈ jsDateRange startDate endDate ∧
      entry.count = entry.events.length ∧
      jsSome (hourIs 8 12) entry.events = .ok entry.hasMorning ∧
      jsSome (hourIs 12 17) entry.events = .ok entry.hasAfternoon ∧
      jsSome (hourGe 17) entry.events = .ok entry.hasEvening ∧
      ∀ ev ∈ entry.events, ev ∈ events ∧
        ∃ s0 : String, ev.getField "start_time" = some (.str s0) ∧ s0 ≠ "" ∧
          (jsSplit s0 "T").headD "" = d := by
  unfold analyzeEventCoverage at h
  cases hf : events.foldlM groupStep
      ((jsDateRange startDate endDate).map (fun d => (d, ([] : List Json)))) with
  | error m =>
    rw [hf] at h
    exact Except.noConfusion h
  | ok grouped =>
    rw [hf] at h
    dsimp only at h
    obtain ⟨hkeys_f, hprop_f⟩ :=
      foldlM_groupStep events events _ grouped (fun x hx => hx) hf
    obtain ⟨hkeys_m, hprop_m⟩ := mapM_coverageEntry grouped cov h
    have hinit : ((jsDateRange startDate endDate).map
        (fun d => (d, ([] : List Json)))).map Prod.fst
        = jsDateRange startDate endDate := by
      rw [List.map_map]
      have hid : (Prod.fst ∘ fun d : String => (d, ([] : List Json))) = id := rfl
      rw [hid, List.map_id]
    have hkeys : cov.map Prod.fst = jsDateRange startDate endDate := by
      rw [hkeys_m, hkeys_f, hinit]
    refine ⟨hkeys, ?_⟩
    intro d entry hd
    obtain ⟨lst, hmem_g, hev_eq, hcount, h4, h5, h6⟩ := hprop_m (d, entry) hd
    have hd_in : d ∈ jsDateRange startDate endDate := by
      rw [← hkeys]
      exact List.mem_map_of_mem Prod.fst hd
    refine ⟨hd_in, by rw [hcount, hev_eq], by rw [hev_eq]; exact h4,
      by rw [hev_eq]; exact h5, by rw [hev_eq]; exact h6, ?_⟩
    intro ev hev
    have hev_lst : ev ∈ lst := hev_eq ▸ hev
    rcases hprop_f (d, lst) hmem_g ev hev_lst with ⟨p0, hp0, _, hev0⟩ | hnew
    · obtain ⟨d0, _, hpe⟩ := List.mem_map.mp hp0
      rw [← hpe] at hev0
      cases hev0
    · exact hnew

def c10Ev1 : Json :=
  Json.obj [("name", Json.str "A"), ("start_time", Json.str "2026-01-03T09:30:00")]

/-- C10 witness inputs: one in-range event, one whose day lies outside
the range, and one with no `start_time`. -/
def c10Events : List Json :=
  [c10Ev1,
   Json.obj [("name", Json.str "B"), ("start_time", Json.str "2026-01-09T14:00:00")],
   Json.obj [("name", Json.str "Z")]]

set_option maxRecDepth 40000 in
/-- C10 witness: the concrete run buckets only the in-range event, keeps
an (empty) entry for the second day, and the applied theorem yields the
key list and count facts. -/
theorem analyzeEventCoverage_exact_bucketing_witness :
    ([("2026-01-03", CoverageEntry.mk 1 [c10Ev1] true false false),
      ("2026-01-04", CoverageEntry.mk 0 [] false false false)].map Prod.fst
      = jsDateRange "2026-01-03" "2026-01-04") ∧
    (CoverageEntry.mk 1 [c10Ev1] true false false).count
      = (CoverageEntry.mk 1 [c10Ev1] true false false).events.length := by
  have h := analyzeEventCoverage_exact_bucketing c10Events "2026-01-03" "2026-01-04"
    [("2026-01-03", CoverageEntry.mk 1 [c10Ev1] true false false),
     ("2026-01-04", CoverageEntry.mk 0 [] false false false)] (by decide)
  exact ⟨h.1, (h.2 "2026-01-03" (CoverageEntry.mk 1 [c10Ev1] true false false)
    (by decide)).2.1⟩
